import Mathlib

/-!
Verification of the Telegram Mini App authentication core of this repository:
`common/auth/telegram.py` (signature validation, init-data parsing, freshness),
`api/dependencies.py` (the authentication gate `get_current_user`),
`common/db/postgres/interactors/user.py` (`get_or_create`), and
`common/cache.py` (`_serialize` / `_deserialize`).

The Python code is shallowly embedded: pure functions become Lean functions,
the database becomes an explicit state, exceptions become `Except`/`Option`,
machine-free Python integers become `Int`/`Nat`.  Library calls that the code
relies on (`int()`, `urllib.parse.parse_qsl`, `hashlib`/`hmac`, `json`,
`datetime.isoformat`/`fromisoformat`) are modelled faithfully at the level of
detail the code exercises; documented restrictions: strings are sequences of
unicode scalar values (no lone surrogates), JSON numbers are restricted to the
integer fragment (no floats / NaN / Infinity), `int()` accepts ASCII digits,
and `fromisoformat` is modelled on the extended `YYYY-MM-DD[*HH:MM[:SS[.f]]]`
grammar it accepts for the values `isoformat` emits.
-/

/-! ### Model of Python `int(str)` -/

/-- Whitespace stripped by Python `int()` (`str.strip()` on ASCII whitespace). -/
def pyIsSpace (c : Char) : Bool :=
  c = ' ' || c = '\t' || c = '\n' || c = '\x0d' || (c.toNat = 11) || (c.toNat = 12)

/-- Strip leading and trailing whitespace from a character list. -/
def stripWs (cs : List Char) : List Char :=
  ((cs.dropWhile pyIsSpace).reverse.dropWhile pyIsSpace).reverse

/-- Digit run after the first digit: decimal digits with single underscores
allowed between digits, as accepted by Python `int()`. -/
def pyDigitsAux : List Char → Nat → Option Nat
  | [], acc => some acc
  | '_' :: c :: cs, acc =>
    if c.isDigit then pyDigitsAux cs (acc * 10 + (c.toNat - 48)) else none
  | c :: cs, acc =>
    if c.isDigit then pyDigitsAux cs (acc * 10 + (c.toNat - 48)) else none

/-- A nonempty digit run (`int()` body after the optional sign). -/
def pyDigitsStart : List Char → Option Nat
  | [] => none
  | c :: cs => if c.isDigit then pyDigitsAux cs (c.toNat - 48) else none

/-- Model of Python `int(s)` for a `str` argument: optional surrounding
whitespace, optional sign, nonempty ASCII digit run with underscores between
digits; everything else raises `ValueError`, modelled as `none`. -/
def pyIntParse (s : String) : Option Int :=
  match stripWs s.data with
  | '+' :: rest => (pyDigitsStart rest).map Int.ofNat
  | '-' :: rest => (pyDigitsStart rest).map (fun n => -(n : Int))
  | rest => (pyDigitsStart rest).map Int.ofNat

/-! ### `TelegramAuth.check_expiration` (`common/auth/telegram.py`)

The current Unix time (`datetime.now(timezone.utc).timestamp()`) is passed in
explicitly as `now`. -/

/-- Embedding of `TelegramAuth.check_expiration`: parse `auth_date` with
`int()`, return `False` on `ValueError`/`TypeError`, otherwise check
`current - auth_timestamp <= max_age_seconds`. -/
def check_expiration (now : Int) (auth_date : String) (max_age_seconds : Int) : Bool :=
  match pyIntParse auth_date with
  | none => false
  | some t => decide (now - t ≤ max_age_seconds)

/-! ### Byte-level primitives: UTF-8, SHA-256, HMAC, hex digests

`hashlib.sha256` / `hmac.new(...)` are modelled by a full implementation of
SHA-256 over byte lists; 32-bit words are `Nat` reduced mod `2^32`. -/

def w32 (n : Nat) : Nat := n % 4294967296

def wadd (a b : Nat) : Nat := (a + b) % 4294967296

def rotr (n x : Nat) : Nat := w32 ((x >>> n) ||| (x <<< (32 - n)))

def sha256K : List Nat :=
  [0x428a2f98, 0x71374491, 0xb5c0fbcf, 0xe9b5dba5, 0x3956c25b, 0x59f111f1, 0x923f82a4, 0xab1c5ed5] ++
  [0xd807aa98, 0x12835b01, 0x243185be, 0x550c7dc3, 0x72be5d74, 0x80deb1fe, 0x9bdc06a7, 0xc19bf174] ++
  [0xe49b69c1, 0xefbe4786, 0x0fc19dc6, 0x240ca1cc, 0x2de92c6f, 0x4a7484aa, 0x5cb0a9dc, 0x76f988da] ++
  [0x983e5152, 0xa831c66d, 0xb00327c8, 0xbf597fc7, 0xc6e00bf3, 0xd5a79147, 0x06ca6351, 0x14292967] ++
  [0x27b70a85, 0x2e1b2138, 0x4d2c6dfc, 0x53380d13, 0x650a7354, 0x766a0abb, 0x81c2c92e, 0x92722c85] ++
  [0xa2bfe8a1, 0xa81a664b, 0xc24b8b70, 0xc76c51a3, 0xd192e819, 0xd6990624, 0xf40e3585, 0x106aa070] ++
  [0x19a4c116, 0x1e376c08, 0x2748774c, 0x34b0bcb5, 0x391c0cb3, 0x4ed8aa4a, 0x5b9cca4f, 0x682e6ff3] ++
  [0x748f82ee, 0x78a5636f, 0x84c87814, 0x8cc70208, 0x90befffa, 0xa4506ceb, 0xbef9a3f7, 0xc67178f2]

def sha256H0 : List Nat :=
  [0x6a09e667, 0xbb67ae85, 0x3c6ef372, 0xa54ff53a, 0x510e527f, 0x9b05688c, 0x1f83d9ab, 0x5be0cd19]

/-- Big-endian byte decomposition, `k` bytes. -/
def beBytes : Nat → Nat → List Nat
  | 0, _ => []
  | k + 1, n => beBytes k (n / 256) ++ [n % 256]

/-- SHA-256 padding: append 0x80, zeros, and the 64-bit big-endian bit length. -/
def sha256Pad (msg : List Nat) : List Nat :=
  msg ++ [0x80] ++ List.replicate ((119 - msg.length % 64) % 64) 0 ++ beBytes 8 (msg.length * 8)

/-- Split into 64-byte blocks (fuel-based so that it reduces definitionally). -/
def chunks64Aux : Nat → List Nat → List (List Nat)
  | 0, _ => []
  | fuel + 1, l => if l = [] then [] else l.take 64 :: chunks64Aux fuel (l.drop 64)

/-- Split into 64-byte blocks. -/
def chunks64 (l : List Nat) : List (List Nat) := chunks64Aux l.length l

/-- 4 consecutive big-endian bytes of a block as a 32-bit word, word index `i`. -/
def blockWord (b : List Nat) (i : Nat) : Nat :=
  b.getD (4 * i) 0 * 16777216 + b.getD (4 * i + 1) 0 * 65536 +
    b.getD (4 * i + 2) 0 * 256 + b.getD (4 * i + 3) 0

/-- Extend the 16-word message schedule to 64 words. -/
def extendSched : Nat → List Nat → List Nat
  | 0, w => w
  | k + 1, w =>
    let i := w.length
    let w15 := w.getD (i - 15) 0
    let w2 := w.getD (i - 2) 0
    let s0 := (rotr 7 w15) ^^^ (rotr 18 w15) ^^^ (w15 >>> 3)
    let s1 := (rotr 17 w2) ^^^ (rotr 19 w2) ^^^ (w2 >>> 10)
    extendSched k (w ++ [wadd (wadd (w.getD (i - 16) 0) s0) (wadd (w.getD (i - 7) 0) s1)])

/-- One round of the SHA-256 compression function on the 8-word state. -/
def sha256Round (st : List Nat) (k wi : Nat) : List Nat :=
  match st with
  | [a, b, c, d, e, f, g, h] =>
    let s1 := (rotr 6 e) ^^^ (rotr 11 e) ^^^ (rotr 25 e)
    let ch := (e &&& f) ^^^ ((e ^^^ 0xffffffff) &&& g)
    let t1 := wadd (wadd (wadd h s1) (wadd ch k)) wi
    let s0 := (rotr 2 a) ^^^ (rotr 13 a) ^^^ (rotr 22 a)
    let maj := (a &&& b) ^^^ (a &&& c) ^^^ (b &&& c)
    let t2 := wadd s0 maj
    [wadd t1 t2, a, b, c, wadd d t1, e, f, g]
  | st => st

/-- Compress one 64-byte block into the hash state. -/
def sha256Block (hst : List Nat) (blk : List Nat) : List Nat :=
  let w := extendSched 48 ((List.range 16).map (blockWord blk))
  let st := (List.zip sha256K w).foldl (fun st kw => sha256Round st kw.1 kw.2) hst
  (List.zip hst st).map (fun p => wadd p.1 p.2)

/-- SHA-256 of a byte list, as a 32-byte list. -/
def sha256 (msg : List Nat) : List Nat :=
  ((chunks64 (sha256Pad msg)).foldl sha256Block sha256H0).foldr
    (fun wrd acc => beBytes 4 wrd ++ acc) []

/-- HMAC-SHA256 (RFC 2104, as implemented by `hmac.new(key, msg, sha256)`). -/
def hmacSha256 (key msg : List Nat) : List Nat :=
  let k1 := if 64 < key.length then sha256 key else key
  let k2 := k1 ++ List.replicate (64 - k1.length) 0
  sha256 ((k2.map (fun b => b ^^^ 0x5c)) ++ sha256 ((k2.map (fun b => b ^^^ 0x36)) ++ msg))

def hexChar (n : Nat) : Char := if n < 10 then Char.ofNat (48 + n) else Char.ofNat (87 + n)

/-- Lowercase hex digest of a byte list (Python `hexdigest()`). -/
def hexDigest (bytes : List Nat) : String :=
  ⟨(bytes.map (fun b => [hexChar (b / 16), hexChar (b % 16)])).flatten⟩

/-- UTF-8 encoding of one unicode scalar value. -/
def utf8EncodeChar (c : Char) : List Nat :=
  let n := c.toNat
  if n < 0x80 then [n]
  else if n < 0x800 then [0xc0 ||| (n >>> 6), 0x80 ||| (n &&& 0x3f)]
  else if n < 0x10000 then
    [0xe0 ||| (n >>> 12), 0x80 ||| ((n >>> 6) &&& 0x3f), 0x80 ||| (n &&& 0x3f)]
  else
    [0xf0 ||| (n >>> 18), 0x80 ||| ((n >>> 12) &&& 0x3f),
     0x80 ||| ((n >>> 6) &&& 0x3f), 0x80 ||| (n &&& 0x3f)]

/-- Python `str.encode()` (UTF-8). -/
def utf8Encode (s : String) : List Nat := (s.data.map utf8EncodeChar).flatten

/-- Python `str.isascii()`. -/
def isAsciiStr (s : String) : Bool := s.data.all (fun c => c.toNat ≤ 127)

/-! ### Python string comparison

Python compares strings lexicographically by code point; Lean's `String.lt`
is propositionally the same order but its decision procedure does not reduce
definitionally, so the order is implemented directly on character lists. -/

/-- Lexicographic (code-point) strict comparison of character lists, as used
by Python `<` on `str` and by `sorted`. -/
def cltB : List Char → List Char → Bool
  | [], [] => false
  | [], _ :: _ => true
  | _ :: _, [] => false
  | a :: as, b :: bs => if a < b then true else if b < a then false else cltB as bs

/-- Python `a <= b` on strings. -/
def strLeB (a b : String) : Bool := !(cltB b.data a.data)

/-- The order `sorted(data.items())` sorts by: lexicographic on the
`(key, value)` pairs of strings. -/
def pairLeR (p q : String × String) : Prop :=
  cltB p.1.data q.1.data = true ∨ (p.1 = q.1 ∧ strLeB p.2 q.2 = true)

/-- Ordering pairs by key alone (the spec wording: entries sorted ascending
by key). -/
def keyLeR (p q : String × String) : Prop := cltB q.1.data p.1.data = false

instance : DecidableRel pairLeR := fun p q => by unfold pairLeR; infer_instance

instance : DecidableRel keyLeR := fun p q => by unfold keyLeR; infer_instance

/-- Python `"\n".join(...)`. -/
def joinNl (parts : List String) : String :=
  match parts with
  | [] => ""
  | p :: ps => ps.foldl (fun acc q => acc ++ "\n" ++ q) p

/-! ### `TelegramAuth.validate_signature` (`common/auth/telegram.py`)

The function reads `config.bot.token`; the configuration value is passed
explicitly as `bot_token`.  `raise ValueError(...)` becomes `Except.error`;
`hmac.compare_digest` on two `str` arguments raises `TypeError` unless both
are ASCII, and otherwise is a (constant-time) string equality test. -/

/-- Step 2 of the algorithm: `"\n".join(f"{k}={v}" for k, v in sorted(data.items()))`. -/
def data_check_string (data : List (String × String)) : String :=
  joinNl ((List.insertionSort pairLeR data).map (fun kv => kv.1 ++ "=" ++ kv.2))

/-- Embedding of `TelegramAuth.validate_signature`.  `data` is the parsed
payload dict (a key-value list with distinct keys), `received_hash` the
client-provided hash.  Errors: empty `bot_token` raises `ValueError`;
`hmac.compare_digest(str, str)` raises `TypeError` on non-ASCII input. -/
def validate_signature (bot_token : String) (data : List (String × String))
    (received_hash : String) : Except String Bool :=
  if bot_token = "" then .error "bot_token not configured"
  else
    let secret_key := hmacSha256 (utf8Encode "WebAppData") (utf8Encode bot_token)
    let computed_hash := hexDigest (hmacSha256 secret_key (utf8Encode (data_check_string data)))
    if isAsciiStr computed_hash && isAsciiStr received_hash then
      .ok (computed_hash == received_hash)
    else .error "TypeError: comparing strings with non-ASCII characters"

/-- The check string exactly as the spec words it: entries sorted ascending
by key, joined as `key=value` lines with newlines. -/
def spec_check_string (data : List (String × String)) : String :=
  joinNl ((List.insertionSort keyLeR data).map (fun kv => kv.1 ++ "=" ++ kv.2))

/-- Signing per the spec: the lowercase hex HMAC-SHA256 digest of the
canonical check string under the key `HMAC-SHA256(key="WebAppData",
msg=bot_secret)`. -/
def spec_sign (bot_token : String) (data : List (String × String)) : String :=
  hexDigest (hmacSha256 (hmacSha256 (utf8Encode "WebAppData") (utf8Encode bot_token))
    (utf8Encode (spec_check_string data)))

/-! ### `TelegramAuth.parse_init_data` (`common/auth/telegram.py`)

`dict(parse_qsl(init_data))`, with `urllib.parse.parse_qsl` at its default
arguments and `unquote` with `encoding="utf-8", errors="replace"`. -/

/-- Is a byte a UTF-8 continuation byte. -/
def contB (b : Nat) : Bool := 0x80 ≤ b && b ≤ 0xbf

/-- UTF-8 decoding with the `replace` error handler, fuel-based so that it
reduces definitionally; each step consumes at least one byte. -/
def utf8DecAux : Nat → List Nat → List Char
  | 0, _ => []
  | _ + 1, [] => []
  | fuel + 1, b :: rest =>
    if b ≤ 0x7f then Char.ofNat b :: utf8DecAux fuel rest
    else if 0xc2 ≤ b && b ≤ 0xdf then
      match rest with
      | b1 :: rest1 =>
        if contB b1 then Char.ofNat ((b - 0xc0) * 64 + (b1 - 0x80)) :: utf8DecAux fuel rest1
        else '�' :: utf8DecAux fuel rest
      | [] => ['�']
    else if 0xe0 ≤ b && b ≤ 0xef then
      let lo := if b = 0xe0 then 0xa0 else 0x80
      let hi := if b = 0xed then 0x9f else 0xbf
      match rest with
      | b1 :: rest1 =>
        if lo ≤ b1 && b1 ≤ hi then
          match rest1 with
          | b2 :: rest2 =>
            if contB b2 then
              Char.ofNat ((b - 0xe0) * 4096 + (b1 - 0x80) * 64 + (b2 - 0x80)) :: utf8DecAux fuel rest2
            else '�' :: utf8DecAux fuel rest1
          | [] => ['�']
        else '�' :: utf8DecAux fuel rest
      | [] => ['�']
    else if 0xf0 ≤ b && b ≤ 0xf4 then
      let lo := if b = 0xf0 then 0x90 else 0x80
      let hi := if b = 0xf4 then 0x8f else 0xbf
      match rest with
      | b1 :: rest1 =>
        if lo ≤ b1 && b1 ≤ hi then
          match rest1 with
          | b2 :: rest2 =>
            if contB b2 then
              match rest2 with
              | b3 :: rest3 =>
                if contB b3 then
                  Char.ofNat ((b - 0xf0) * 262144 + (b1 - 0x80) * 4096 +
                    (b2 - 0x80) * 64 + (b3 - 0x80)) :: utf8DecAux fuel rest3
                else '�' :: utf8DecAux fuel rest2
              | [] => ['�']
            else '�' :: utf8DecAux fuel rest1
          | [] => ['�']
        else '�' :: utf8DecAux fuel rest
      | [] => ['�']
    else '�' :: utf8DecAux fuel rest

/-- UTF-8 decoding with the `replace` error handler: each maximal subpart of
an ill-formed subsequence becomes one U+FFFD, as CPython's decoder does. -/
def utf8Dec (bytes : List Nat) : List Char := utf8DecAux bytes.length bytes

/-- The value of an ASCII hex digit (`urllib`'s `_hextobyte` accepts both
cases). -/
def hexVal? (c : Char) : Option Nat :=
  if '0' ≤ c && c ≤ '9' then some (c.toNat - 48)
  else if 'a' ≤ c && c ≤ 'f' then some (c.toNat - 87)
  else if 'A' ≤ c && c ≤ 'F' then some (c.toNat - 55)
  else none

/-- `urllib.parse.unquote_to_bytes` on an ASCII run: `%xx` with two hex
digits becomes the byte `0xxx`, any other `%` stays literal. -/
def pctBytes : List Char → List Nat
  | [] => []
  | '%' :: a :: b :: rest =>
    match hexVal? a, hexVal? b with
    | some x, some y => (x * 16 + y) :: pctBytes rest
    | _, _ => 37 :: pctBytes (a :: b :: rest)
  | c :: rest => c.toNat :: pctBytes rest

/-- Body of `urllib.parse.unquote(s, encoding="utf-8", errors="replace")`:
maximal ASCII runs are percent-decoded to bytes and UTF-8-decoded with
replacement; non-ASCII characters pass through unchanged. -/
def unquoteAux : List Char → List Char → List Char
  | [], buf => utf8Dec (pctBytes buf.reverse)
  | c :: cs, buf =>
    if c.toNat ≤ 127 then unquoteAux cs (c :: buf)
    else utf8Dec (pctBytes buf.reverse) ++ c :: unquoteAux cs []

/-- `urllib.parse.unquote` with UTF-8 and `errors="replace"`. -/
def unquote (s : String) : String := ⟨unquoteAux s.data []⟩

/-- Python `str.replace("+", " ")`, applied by `parse_qsl` before unquoting. -/
def replacePlus (s : String) : String :=
  ⟨s.data.map (fun c => if c = '+' then ' ' else c)⟩

/-- Python `str.partition("=")` restricted to what `parse_qsl` uses: the
parts before and after the first `=`, or `none` when there is no `=`. -/
def partitionEq : List Char → Option (List Char × List Char)
  | [] => none
  | '=' :: rest => some ([], rest)
  | c :: rest => (partitionEq rest).map (fun p => (c :: p.1, p.2))

/-- Python `str.split("&")`. -/
def splitAmp (cs : List Char) : List (List Char) :=
  cs.foldr
    (fun c acc =>
      if c = '&' then [] :: acc
      else
        match acc with
        | a :: as => (c :: a) :: as
        | [] => [[c]])
    [[]]

/-- One `name_value` segment of `urllib.parse.parse_qsl` with the default
`keep_blank_values=False, strict_parsing=False, separator="&"`: empty
segments, segments without `=` and segments with an empty value are dropped;
`+` becomes a space and both parts are percent-decoded. -/
def qslPair (seg : List Char) : Option (String × String) :=
  if seg = [] then none
  else
    match partitionEq seg with
    | none => none
    | some (nm, vl) =>
      if vl = [] then none
      else some (unquote (replacePlus ⟨nm⟩), unquote (replacePlus ⟨vl⟩))

/-- `urllib.parse.parse_qsl(qs)` with default arguments. -/
def parse_qsl (qs : String) : List (String × String) :=
  (splitAmp qs.data).filterMap qslPair

/-- Python `dict(pairs)`: first occurrence fixes the position, the last
occurrence of a key fixes the value. -/
def dictInsert {α : Type} (d : List (String × α)) (k : String) (v : α) :
    List (String × α) :=
  if d.any (fun p => p.1 == k) then d.map (fun p => if p.1 == k then (k, v) else p)
  else d ++ [(k, v)]

/-- Python `dict(...)` built from a pair list. -/
def dictOf {α : Type} (l : List (String × α)) : List (String × α) :=
  l.foldl (fun d p => dictInsert d p.1 p.2) []

/-- Embedding of `TelegramAuth.parse_init_data`: `dict(parse_qsl(init_data))`. -/
def parse_init_data (init_data : String) : List (String × String) :=
  dictOf (parse_qsl init_data)

/-- The decoding rule exactly as the C3 claim words it: split on `&`, split
each segment on the first `=`, percent-decode both key and value, last
occurrence of a duplicate key wins.  (Defined from the claim's words, to be
compared with `parse_init_data`.) -/
def parseSpecC3 (s : String) : List (String × String) :=
  dictOf ((splitAmp s.data).filterMap (fun seg =>
    (partitionEq seg).map (fun p => (unquote ⟨p.1⟩, unquote ⟨p.2⟩))))

/-! The amended C3 rule, built from the amended claim's words alone and
independently of the `parse_qsl` embedding above: scan off `&`-separated
segments with `takeWhile`/`dropWhile`, drop a segment that is empty, has no
`=`, or has an empty value part, cut the rest at the first `=`, replace `+`
by a space on each side, percent-decode each side, and let the last
occurrence of a duplicate key win. -/

/-- Splitting on `&` as the amended claim words it: the next segment is
everything before the first `&`, the rest is rescanned (fuel-based). -/
def specSplitAmp : Nat → List Char → List (List Char)
  | 0, _ => []
  | fuel + 1, cs =>
    match cs.dropWhile (fun c => !(c = '&')) with
    | [] => [cs.takeWhile (fun c => !(c = '&'))]
    | _ :: rest => cs.takeWhile (fun c => !(c = '&')) :: specSplitAmp fuel rest

/-- Whether the amended rule drops a segment: empty, no `=`, or the part
after the first `=` is empty. -/
def specDropSeg (seg : List Char) : Bool :=
  seg.isEmpty || !(seg.contains '=') ||
    ((seg.dropWhile (fun c => !(c = '='))).drop 1).isEmpty

/-- One side of a kept segment: `+` to space, then percent-decode. -/
def specDecode (part : List Char) : String :=
  unquote ⟨part.map (fun c => if c = '+' then ' ' else c)⟩

/-- A kept segment becomes the pair of its decoded sides, cut at the first
`=`. -/
def specPair (seg : List Char) : Option (String × String) :=
  if specDropSeg seg then none
  else some (specDecode (seg.takeWhile (fun c => !(c = '='))),
    specDecode ((seg.dropWhile (fun c => !(c = '='))).drop 1))

/-- Last occurrence of a duplicate key wins; first occurrence fixes the
position. -/
def specLastWins (l : List (String × String)) : List (String × String) :=
  l.foldl
    (fun acc p =>
      if acc.any (fun q => q.1 = p.1) then acc.map (fun q => if q.1 = p.1 then p else q)
      else acc ++ [p])
    []

/-- The whole decoding rule of the amended C3 claim. -/
def parse_init_data_specAmended (s : String) : List (String × String) :=
  specLastWins ((specSplitAmp (s.data.length + 1) s.data).filterMap specPair)

/-! ### Python `json.loads` (used by the gate on the `user` value)

Restricted to the fragment the code exercises: numbers are integers (float,
`NaN` and `Infinity` literals are out of the model), strings are sequences
of unicode scalar values (no lone surrogates). -/

/-- Python JSON values, with numbers restricted to the integer fragment. -/
inductive Json where
  | null
  | bool (b : Bool)
  | num (n : Int)
  | str (s : String)
  | arr (elems : List Json)
  | obj (fields : List (String × Json))

/-- JSON whitespace, as skipped by the `json` scanner. -/
def jskipWs (cs : List Char) : List Char :=
  cs.dropWhile (fun c => c = ' ' || c = '\t' || c = '\n' || c = '\x0d')

/-- String body scanner of the C `json` scanner, after the opening quote.
Returns the decoded characters and the input after the closing quote.
Control characters are rejected (`strict=True`); `\\uXXXX` escapes join
surrogate pairs.  Model restriction: a lone surrogate (which Python would
keep in the `str`) is rejected, since Lean strings hold scalar values. -/
def jparseStrL : List Char → Option (List Char × List Char)
  | [] => none
  | '"' :: rest => some ([], rest)
  | '\\' :: 'u' :: a :: b :: c :: d :: rest =>
    (match hexVal? a, hexVal? b, hexVal? c, hexVal? d with
     | some x, some y, some z, some w =>
       let n := ((x * 16 + y) * 16 + z) * 16 + w
       if 0xd800 ≤ n && n ≤ 0xdbff then
         match rest with
         | '\\' :: 'u' :: e :: f :: g :: h :: rest2 =>
           (match hexVal? e, hexVal? f, hexVal? g, hexVal? h with
           | some x2, some y2, some z2, some w2 =>
             let m := ((x2 * 16 + y2) * 16 + z2) * 16 + w2
             if 0xdc00 ≤ m && m ≤ 0xdfff then
               (jparseStrL rest2).map (fun p =>
                 (Char.ofNat (0x10000 + (n - 0xd800) * 1024 + (m - 0xdc00)) :: p.1, p.2))
             else none
           | _, _, _, _ => none)
         | _ => none
       else if 0xdc00 ≤ n && n ≤ 0xdfff then none
       else (jparseStrL rest).map (fun p => (Char.ofNat n :: p.1, p.2))
     | _, _, _, _ => none)
  | '\\' :: e :: rest =>
    (match (if e = '"' then some '"' else if e = '\\' then some '\\'
            else if e = '/' then some '/' else if e = 'b' then some (Char.ofNat 8)
            else if e = 'f' then some (Char.ofNat 12) else if e = 'n' then some (Char.ofNat 10)
            else if e = 'r' then some (Char.ofNat 13) else if e = 't' then some (Char.ofNat 9)
            else none) with
     | some ch => (jparseStrL rest).map (fun p => (ch :: p.1, p.2))
     | none => none)
  | c :: rest =>
    if c.toNat < 0x20 then none
    else (jparseStrL rest).map (fun p => (c :: p.1, p.2))

def digitsToNat (ds : List Char) : Nat := ds.foldl (fun a c => a * 10 + (c.toNat - 48)) 0

/-- Does a just-parsed integer literal stand alone, i.e. is it not followed
by a fraction or exponent (which would make it a float literal — out of the
model). -/
def jnumStop : List Char → Bool
  | [] => true
  | r :: _ => !(r = '.' || r = 'e' || r = 'E')

/-- Unsigned part of a JSON integer literal: `0|[1-9][0-9]*`. -/
def jparseNumNat (cs : List Char) : Option (Nat × List Char) :=
  match cs with
  | [] => none
  | c :: rest =>
    if c = '0' then
      if jnumStop rest then some (0, rest) else none
    else if c.isDigit then
      let ds := rest.takeWhile Char.isDigit
      let rest2 := rest.dropWhile Char.isDigit
      if jnumStop rest2 then some (digitsToNat (c :: ds), rest2) else none
    else none

/-- Integer literal of the JSON grammar: `-?(0|[1-9][0-9]*)`.  Model
restriction: a following `.`, `e` or `E` (a float literal, which Python
would parse as a `float`) makes the model parser fail. -/
def jparseNum (cs : List Char) : Option (Int × List Char) :=
  match cs with
  | [] => none
  | c :: rest =>
    if c = '-' then (jparseNumNat rest).map (fun p => (-(p.1 : Int), p.2))
    else (jparseNumNat (c :: rest)).map (fun p => ((p.1 : Int), p.2))

mutual

/-- One JSON value (the C scanner's `scan_once`), leading whitespace
skipped. -/
def jparseVal : Nat → List Char → Option (Json × List Char)
  | 0, _ => none
  | fuel + 1, cs =>
    match jskipWs cs with
    | '"' :: rest => (jparseStrL rest).map (fun p => (Json.str ⟨p.1⟩, p.2))
    | '{' :: rest =>
      (match jskipWs rest with
       | '}' :: rest2 => some (Json.obj [], rest2)
       | _ => (jparseMembers fuel (jskipWs rest)).map (fun p => (Json.obj p.1, p.2)))
    | '[' :: rest =>
      (match jskipWs rest with
       | ']' :: rest2 => some (Json.arr [], rest2)
       | _ => (jparseElems fuel (jskipWs rest)).map (fun p => (Json.arr p.1, p.2)))
    | 't' :: 'r' :: 'u' :: 'e' :: rest => some (Json.bool true, rest)
    | 'f' :: 'a' :: 'l' :: 's' :: 'e' :: rest => some (Json.bool false, rest)
    | 'n' :: 'u' :: 'l' :: 'l' :: rest => some (Json.null, rest)
    | cs2 => (jparseNum cs2).map (fun p => (Json.num p.1, p.2))

/-- Nonempty member list of a JSON object, starting at the first key. -/
def jparseMembers : Nat → List Char → Option (List (String × Json) × List Char)
  | 0, _ => none
  | fuel + 1, cs =>
    match cs with
    | '"' :: rest =>
      (match jparseStrL rest with
       | none => none
       | some (k, rest1) =>
         match jskipWs rest1 with
         | ':' :: rest2 =>
           (match jparseVal fuel rest2 with
            | none => none
            | some (v, rest3) =>
              match jskipWs rest3 with
              | ',' :: rest4 =>
                (jparseMembers fuel (jskipWs rest4)).map
                  (fun p => ((String.mk k, v) :: p.1, p.2))
              | '}' :: rest4 => some ([(String.mk k, v)], rest4)
              | _ => none)
         | _ => none)
    | _ => none

/-- Nonempty element list of a JSON array, starting at the first element. -/
def jparseElems : Nat → List Char → Option (List Json × List Char)
  | 0, _ => none
  | fuel + 1, cs =>
    match jparseVal fuel cs with
    | none => none
    | some (v, rest) =>
      match jskipWs rest with
      | ',' :: rest2 => (jparseElems fuel rest2).map (fun p => (v :: p.1, p.2))
      | ']' :: rest2 => some ([v], rest2)
      | _ => none

end

/-- `json.loads`, restricted to the integer/scalar-value fragment: parse one
value, then require only whitespace to remain. -/
def json_loads (s : String) : Option Json :=
  match jparseVal (2 * s.data.length + 2) s.data with
  | some (v, rest) => if jskipWs rest = [] then some v else none
  | none => none

/-! ### The authentication gate: `get_current_user` (`api/dependencies.py`)

Configuration (`config.bot.token`, `config.api.debug_token`) and the current
time are explicit parameters; `token` is `credentials.credentials` of the
Bearer header.  An `HTTPException` becomes `Except.error` with a typed
constructor per `detail` string; exceptions that escape the handler
(`ValueError` from `int()`, `AttributeError` from `.get` on a non-dict,
errors raised by `validate_signature`) get their own constructors. -/

/-- Python truthiness of a decoded JSON value (`if not telegram_id`). -/
def jtruthy : Json → Bool
  | .null => false
  | .bool b => b
  | .num n => n != 0
  | .str s => s != ""
  | .arr l => !l.isEmpty
  | .obj f => !f.isEmpty

def jIsObj : Json → Bool
  | .obj _ => true
  | _ => false

/-- Failure modes of `get_current_user`: the 401 variants (one per `detail`
string), the 500 on store failure, and uncaught exceptions. -/
inductive AuthError where
  | unauthenticated
  | malformedToken
  | missingHash
  | missingUser
  | invalidSignature
  | expired
  | invalidUserPayload
  | missingUserId
  | storeError
  | uncaughtValueError
  | uncaughtSignatureError
  | uncaughtAttributeError
deriving DecidableEq

/-- Python `d["k"]`-style helpers on dicts represented as key-unique
association lists. -/
def hasKey {α : Type} (d : List (String × α)) (k : String) : Bool :=
  d.any (fun p => p.1 == k)

def dget {α : Type} (d : List (String × α)) (k : String) : Option α :=
  (d.find? (fun p => p.1 == k)).map (fun p => p.2)

/-- `parsed_data.pop("hash")`: the dict without the key. -/
def dpop {α : Type} (d : List (String × α)) (k : String) : List (String × α) :=
  d.filter (fun p => !(p.1 == k))

/-- `dict.get` on a decoded JSON object: the last duplicate occurrence wins
(the Python dict is built with later keys overwriting). -/
def jget (fields : List (String × Json)) (k : String) : Option Json :=
  (fields.reverse.find? (fun p => p.1 == k)).map (fun p => p.2)

/-- The user store collaborator as the gate sees it:
`(await uow.users.get_or_create(telegram_id=…, username=…, first_name=…,
last_name=…))` followed by `.id` on the returned user; any raise from the
store is `Except.error`. -/
def GateStore : Type := Json → Option Json → Option Json → Option Json → Except Unit Int

/-- The user-extraction and store step of `get_current_user`
(`json.loads(parsed_data["user"])` through `return user.id`).  A non-dict
JSON value makes `user_data.get("id")` raise `AttributeError`. -/
def extract_user_step (store : GateStore) (user_json : String) : Except AuthError Int :=
  match json_loads user_json with
  | none => .error .invalidUserPayload
  | some user_data =>
    match user_data with
    | .obj fields =>
      let telegram_id := jget fields "id"
      if !((telegram_id.map jtruthy).getD false) then .error .missingUserId
      else
        match store (telegram_id.getD .null) (jget fields "username")
            (jget fields "first_name") (jget fields "last_name") with
        | .ok uid => .ok uid
        | .error _ => .error .storeError
    | _ => .error .uncaughtAttributeError

/-- The body of `get_current_user` on a successfully parsed payload:
required keys, signature, freshness, user extraction and store
reconciliation. -/
def gate_ok_branch (store : GateStore) (bot_token : String) (now : Int)
    (parsed_data : List (String × String)) : Except AuthError Int :=
  if !(hasKey parsed_data "hash") then .error .missingHash
  else if !(hasKey parsed_data "user") then .error .missingUser
  else
    let received_hash := (dget parsed_data "hash").getD ""
    let data := dpop parsed_data "hash"
    match validate_signature bot_token data received_hash with
    | .error _ => .error .uncaughtSignatureError
    | .ok valid =>
      if !valid then .error .invalidSignature
      else if hasKey data "auth_date"
          && !(check_expiration now ((dget data "auth_date").getD "") 86400) then
        .error .expired
      else extract_user_step store ((dget data "user").getD "")

/-- `get_current_user` after the debug-token branch: the code's
`try`/`except` around the (total) parse, then the main chain. -/
def gate_main (store : GateStore) (bot_token : String) (now : Int)
    (token : String) : Except AuthError Int :=
  match (Except.ok (parse_init_data token) : Except Unit (List (String × String))) with
  | .error _ => .error .malformedToken
  | .ok parsed_data => gate_ok_branch store bot_token now parsed_data

/-- Python `str.split(sep)` for a one-character separator. -/
def splitSep (sep : Char) (cs : List Char) : List (List Char) :=
  cs.foldr
    (fun c acc =>
      if c = sep then [] :: acc
      else
        match acc with
        | a :: as => (c :: a) :: as
        | [] => [[c]])
    [[]]

/-- Python `token.split(";")`. -/
def pySplit (s : String) (sep : Char) : List String :=
  (splitSep sep s.data).map String.mk

/-- Embedding of `get_current_user` (`api/dependencies.py`): empty-token
check, debug-token bypass (`"<debug_token>;<user_id>"`), then the main
verification chain. -/
def get_current_user (store : GateStore) (bot_token debug_token : String)
    (now : Int) (token : String) : Except AuthError Int :=
  if token = "" then .error .unauthenticated
  else if debug_token != ""
      && (pySplit token ';').headD "" == debug_token
      && (pySplit token ';').length == 2 then
    match pyIntParse ((pySplit token ';').getD 1 "") with
    | some n => .ok n
    | none => .error .uncaughtValueError
  else gate_main store bot_token now token

/-! ### `UserInteractor.get_or_create` (`common/db/postgres/interactors/user.py`)

The database is an explicit state: the `users` table plus the primary-key
autoincrement counter.  The model carries the columns the interactor reads
and writes (`id`, `telegram_id`, `username`, `first_name`, `last_name`); the
timestamp columns do not participate in these claims. -/

structure DbUser where
  id : Nat
  telegram_id : Int
  username : Option String
  first_name : Option String
  last_name : Option String
deriving DecidableEq

structure Db where
  users : List DbUser
  nextId : Nat
deriving DecidableEq

/-- `select(User).where(User.telegram_id == telegram_id)` followed by
`scalar_one_or_none()`. -/
def findByTelegramId (db : Db) (tid : Int) : Option DbUser :=
  db.users.find? (fun u => u.telegram_id == tid)

/-- `INSERT` of a new row at `flush()`: the unique index on `telegram_id`
(`unique=True` on the column) makes the insert raise `IntegrityError` when a
row with this `telegram_id` already exists. -/
def insertUser (db : Db) (tid : Int) (un fn ln : Option String) :
    Except Unit (DbUser × Db) :=
  if db.users.any (fun u => u.telegram_id == tid) then .error ()
  else
    let u : DbUser := ⟨db.nextId, tid, un, fn, ln⟩
    .ok (u, ⟨db.users ++ [u], db.nextId + 1⟩)

/-- The update block of `get_or_create` on an existing row: each of
`username` / `first_name` / `last_name` is written only when the supplied
value `is not None` and differs from the stored one; the flag is
`needs_update`. -/
def reconcile (u : DbUser) (username first_name last_name : Option String) :
    DbUser × Bool :=
  let r0 := (u, false)
  let r1 := match username with
    | some v => if u.username ≠ some v then ({ r0.1 with username := some v }, true) else r0
    | none => r0
  let r2 := match first_name with
    | some v => if r1.1.first_name ≠ some v then ({ r1.1 with first_name := some v }, true) else r1
    | none => r1
  match last_name with
  | some v => if r2.1.last_name ≠ some v then ({ r2.1 with last_name := some v }, true) else r2
  | none => r2

/-- Write-back of the updated row (`session.add` + `flush`): replace by
primary key. -/
def replaceUser (db : Db) (u : DbUser) : Db :=
  { db with users := db.users.map (fun w => if w.id == u.id then u else w) }

/-- Embedding of `UserInteractor.get_or_create`: select by `telegram_id`,
update changed non-null fields on an existing row, otherwise insert. -/
def get_or_create (db : Db) (telegram_id : Int)
    (username first_name last_name : Option String) :
    Except Unit ((DbUser × Bool) × Db) :=
  match findByTelegramId db telegram_id with
  | some u =>
    let r := reconcile u username first_name last_name
    if r.2 then .ok ((r.1, false), replaceUser db r.1)
    else .ok ((u, false), db)
  | none =>
    match insertUser db telegram_id username first_name last_name with
    | .ok (u, db2) => .ok ((u, true), db2)
    | .error e => .error e

/-- The reconciliation policy on one field, as worded by the claim: a
non-null supplied value wins, a null one never overwrites. -/
def pyMerge (new old : Option String) : Option String :=
  match new with
  | none => old
  | some v => some v

/-! ### Concurrency model for C8

Two concurrent `get_or_create` calls, each split into its two database
round-trips: the `SELECT` and the subsequent write (`UPDATE` of changed
fields, or `INSERT` checked by the unique index on `telegram_id`).  A
schedule interleaves the steps of the two calls against the shared state. -/

deriving instance DecidableEq for Except

/-- The control state of one in-flight `get_or_create` call. -/
inductive CallPhase where
  | start
  | selected (found : Option DbUser)
  | done (result : Except Unit (Nat × Bool))
deriving DecidableEq

/-- One step of a call: `start` performs the `SELECT`; `selected` performs
the write half of `get_or_create` (the insert failing with `IntegrityError`
on a unique-index violation); `done` is absorbing. -/
def stepCall (db : Db) (tid : Int) (un fn ln : Option String) :
    CallPhase → CallPhase × Db
  | .start => (.selected (findByTelegramId db tid), db)
  | .selected (some u) =>
    let r := reconcile u un fn ln
    if r.2 then (.done (.ok (r.1.id, false)), replaceUser db r.1)
    else (.done (.ok (u.id, false)), db)
  | .selected none =>
    match insertUser db tid un fn ln with
    | .ok (u, db2) => (.done (.ok (u.id, true)), db2)
    | .error _ => (.done (.error ()), db)
  | .done r => (.done r, db)

/-- Run an interleaving of two `get_or_create` calls for the same
`telegram_id`: `true` steps the first call, `false` the second. -/
def runSched (tid : Int) (a1 a2 : Option String × Option String × Option String) :
    List Bool → Db × CallPhase × CallPhase → Db × CallPhase × CallPhase
  | [], st => st
  | b :: rest, (db, p1, p2) =>
    if b then
      let s := stepCall db tid a1.1 a1.2.1 a1.2.2 p1
      runSched tid a1 a2 rest (s.2, s.1, p2)
    else
      let s := stepCall db tid a2.1 a2.2.1 a2.2.2 p2
      runSched tid a1 a2 rest (s.2, p1, s.1)

/-- Number of persisted rows carrying an external identity. -/
def countTid (db : Db) (tid : Int) : Nat :=
  db.users.countP (fun u => u.telegram_id == tid)

/-- Well-formedness the schema guarantees: primary keys are unique and below
the autoincrement counter. -/
def WfDb (db : Db) : Prop :=
  (db.users.map DbUser.id).Nodup ∧ ∀ u ∈ db.users, u.id < db.nextId

/-- What a call may assume about a row it selected earlier: it carries the
queried identity, its primary key is below the counter, and any current row
with that primary key still carries the queried identity. -/
def phOk (db : Db) (tid : Int) : CallPhase → Prop
  | .selected (some u) =>
    u.telegram_id = tid ∧ u.id < db.nextId ∧
      ∀ w ∈ db.users, w.id = u.id → w.telegram_id = tid
  | _ => True

/-- Invariant of the two-call system. -/
def InvSt (tid : Int) (st : Db × CallPhase × CallPhase) : Prop :=
  WfDb st.1 ∧ countTid st.1 tid ≤ 1 ∧ phOk st.1 tid st.2.1 ∧ phOk st.1 tid st.2.2

/-! ### The Redis cache codec: `_serialize` / `_deserialize` (`common/cache.py`)

`_serialize` turns an ORM row into JSON (`datetime` columns via
`isoformat()`, plus a `"__model__"` tag); `_deserialize` parses the JSON,
pops `"__model__"`, converts every string value that contains `"T"` and that
`datetime.fromisoformat` accepts back into a `datetime`, and `setattr`s the
entries onto a bare instance.  Python `datetime` is modelled by its seven
components; `fromisoformat` is modelled on the extended
`YYYY-MM-DD[*HH[:MM[:SS[.f{1,6}]]]]` grammar (no timezone suffix — a model
restriction). -/

structure PyDateTime where
  year : Nat
  month : Nat
  day : Nat
  hour : Nat
  minute : Nat
  second : Nat
  microsecond : Nat
deriving DecidableEq

def digitChar (n : Nat) : Char := Char.ofNat (48 + n)

def pad2 (n : Nat) : List Char := [digitChar (n / 10 % 10), digitChar (n % 10)]

def pad4 (n : Nat) : List Char :=
  [digitChar (n / 1000 % 10), digitChar (n / 100 % 10),
   digitChar (n / 10 % 10), digitChar (n % 10)]

def pad6 (n : Nat) : List Char :=
  [digitChar (n / 100000 % 10), digitChar (n / 10000 % 10), digitChar (n / 1000 % 10),
   digitChar (n / 100 % 10), digitChar (n / 10 % 10), digitChar (n % 10)]

/-- `datetime.isoformat()` of a naive datetime: the microsecond part is
printed exactly when nonzero. -/
def isoformat (dt : PyDateTime) : String :=
  ⟨pad4 dt.year ++ '-' :: pad2 dt.month ++ '-' :: pad2 dt.day ++ 'T' ::
    pad2 dt.hour ++ ':' :: pad2 dt.minute ++ ':' :: pad2 dt.second ++
    (if dt.microsecond = 0 then [] else '.' :: pad6 dt.microsecond)⟩

/-- Exactly two ASCII digits. -/
def parse2 : List Char → Option (Nat × List Char)
  | a :: b :: rest =>
    if a.isDigit && b.isDigit then
      some ((a.toNat - 48) * 10 + (b.toNat - 48), rest)
    else none
  | _ => none

/-- Exactly four ASCII digits. -/
def parse4 : List Char → Option (Nat × List Char)
  | a :: b :: c :: d :: rest =>
    if a.isDigit && b.isDigit && c.isDigit && d.isDigit then
      some ((a.toNat - 48) * 1000 + (b.toNat - 48) * 100 +
        (c.toNat - 48) * 10 + (d.toNat - 48), rest)
    else none
  | _ => none

def isLeap (y : Nat) : Bool := y % 4 = 0 && (y % 100 ≠ 0 || y % 400 = 0)

def daysInMonth (y m : Nat) : Nat :=
  if m = 2 then (if isLeap y then 29 else 28)
  else if m = 4 || m = 6 || m = 9 || m = 11 then 30 else 31

/-- Time-of-day part of `fromisoformat` after the date separator:
`HH[:MM[:SS[.f{1,6}]]]`. -/
def pyFromIsoTime (y mo d : Nat) (r : List Char) : Option PyDateTime :=
  match parse2 r with
  | none => none
  | some (hh, r1) =>
    if hh ≤ 23 then
      match r1 with
      | [] => some ⟨y, mo, d, hh, 0, 0, 0⟩
      | ':' :: r2 =>
        match parse2 r2 with
        | none => none
        | some (mi, r3) =>
          if mi ≤ 59 then
            match r3 with
            | [] => some ⟨y, mo, d, hh, mi, 0, 0⟩
            | ':' :: r4 =>
              match parse2 r4 with
              | none => none
              | some (ss, r5) =>
                if ss ≤ 59 then
                  match r5 with
                  | [] => some ⟨y, mo, d, hh, mi, ss, 0⟩
                  | '.' :: r6 =>
                    let ds := r6.takeWhile Char.isDigit
                    if 1 ≤ ds.length && ds.length ≤ 6 && (r6.dropWhile Char.isDigit).isEmpty then
                      some ⟨y, mo, d, hh, mi, ss, digitsToNat ds * 10 ^ (6 - ds.length)⟩
                    else none
                  | _ => none
                else none
            | _ => none
          else none
      | _ => none
    else none

/-- Model of `datetime.fromisoformat` (extended format, no timezone): full
date `YYYY-MM-DD` with calendar validation, optionally a single separator
character and a time of day. -/
def pyFromIso (s : String) : Option PyDateTime :=
  match parse4 s.data with
  | none => none
  | some (y, r1) =>
    match r1 with
    | '-' :: r2 =>
      (match parse2 r2 with
       | none => none
       | some (mo, r3) =>
         match r3 with
         | '-' :: r4 =>
           (match parse2 r4 with
            | none => none
            | some (d, r5) =>
              if 1 ≤ y && 1 ≤ mo && mo ≤ 12 && 1 ≤ d && d ≤ daysInMonth y mo then
                match r5 with
                | [] => some ⟨y, mo, d, 0, 0, 0, 0⟩
                | _ :: r6 => pyFromIsoTime y mo d r6
              else none)
         | _ => none)
    | _ => none

/-! #### `json.dumps` of the serialized row (`ensure_ascii=True`) -/

def natReprAux : Nat → Nat → List Char
  | 0, _ => []
  | fuel + 1, n => if n = 0 then [] else natReprAux fuel (n / 10) ++ [digitChar (n % 10)]

/-- Decimal representation of a natural number (Python `repr`). -/
def natRepr (n : Nat) : List Char := if n = 0 then ['0'] else natReprAux n n

/-- Decimal representation of an integer (Python `repr`). -/
def intRepr (i : Int) : List Char :=
  if i < 0 then '-' :: natRepr i.natAbs else natRepr i.natAbs

def toHex4 (n : Nat) : List Char :=
  [hexChar (n / 4096 % 16), hexChar (n / 256 % 16), hexChar (n / 16 % 16), hexChar (n % 16)]

/-- `json.dumps` escaping of one character with `ensure_ascii=True`
(`py_encode_basestring_ascii`): printable ASCII except `"` and `\` is
literal, the short escapes for `\b\t\n\f\r`, everything else `\uXXXX` with
surrogate pairs above U+FFFF. -/
def jescapeChar (c : Char) : List Char :=
  let n := c.toNat
  if c = '"' then ['\\', '"']
  else if c = '\\' then ['\\', '\\']
  else if n = 8 then ['\\', 'b']
  else if n = 9 then ['\\', 't']
  else if n = 10 then ['\\', 'n']
  else if n = 12 then ['\\', 'f']
  else if n = 13 then ['\\', 'r']
  else if 0x20 ≤ n && n ≤ 0x7e then [c]
  else if n < 0x10000 then '\\' :: 'u' :: toHex4 n
  else
    '\\' :: 'u' :: toHex4 (0xd800 + (n - 0x10000) / 1024) ++
      '\\' :: 'u' :: toHex4 (0xdc00 + (n - 0x10000) % 1024)

def jdumpStrBody (s : String) : List Char := (s.data.map jescapeChar).flatten

/-- `json.dumps` of a string. -/
def jdumpStr (s : String) : List Char := '"' :: jdumpStrBody s ++ ['"']

/-- `json.dumps` of one scalar dict value.  `_serialize` only ever produces
`None`, `int` and `str` values (datetimes are pre-converted to strings), so
the compound cases cannot occur in its output. -/
def jdumpAtom : Json → List Char
  | .null => "null".data
  | .bool true => "true".data
  | .bool false => "false".data
  | .num n => intRepr n
  | .str s => jdumpStr s
  | .arr _ => []
  | .obj _ => []

/-- The members of a dumped flat dict, separated by `", "`, keys and values
joined by `": "` (the `json.dumps` defaults). -/
def jdumpMembers : List (String × Json) → List Char
  | [] => []
  | [(k, v)] => jdumpStr k ++ ':' :: ' ' :: jdumpAtom v
  | (k, v) :: rest => jdumpStr k ++ ':' :: ' ' :: jdumpAtom v ++ ',' :: ' ' :: jdumpMembers rest

/-- `json.dumps` of a flat dict. -/
def jdumpFlatObj (fs : List (String × Json)) : List Char := '{' :: jdumpMembers fs ++ ['}']

/-! #### The codec itself -/

/-- The ORM row with all columns of the `users` table. -/
structure OrmUser where
  id : Int
  telegram_id : Int
  username : Option String
  first_name : Option String
  last_name : Option String
  created_at : PyDateTime
  updated_at : PyDateTime

def jsonOfOptStr : Option String → Json
  | none => .null
  | some s => .str s

/-- The dict `_serialize` builds from the row: the columns in table order
with datetimes as `isoformat()` strings, then the `"__model__"` tag. -/
def serialObj (u : OrmUser) : List (String × Json) :=
  [("id", .num u.id), ("telegram_id", .num u.telegram_id),
   ("username", jsonOfOptStr u.username), ("first_name", jsonOfOptStr u.first_name),
   ("last_name", jsonOfOptStr u.last_name),
   ("created_at", .str (isoformat u.created_at)),
   ("updated_at", .str (isoformat u.updated_at)),
   ("__model__", .str "User")]

/-- Embedding of `_serialize` on a `User` row. -/
def _serialize (u : OrmUser) : String := ⟨jdumpFlatObj (serialObj u)⟩

/-- A value sitting in an attribute of the rebuilt instance: either a JSON
value or a `datetime` recovered by `fromisoformat`. -/
inductive Attr where
  | jval (j : Json)
  | dtval (d : PyDateTime)

/-- The result of `_deserialize(data, User)`: `None`, a rebuilt `User`
instance (its attribute dict), or the plain decoded JSON when the payload
carries no `"__model__"` tag. -/
inductive DeserResult where
  | pynone
  | inst (attrs : List (String × Attr))
  | plain (j : Json)

/-- The per-entry conversion of `_deserialize`: a string value containing
`"T"` that `fromisoformat` parses becomes a `datetime`; everything else is
kept as decoded. -/
def convertEntry : String × Json → String × Attr
  | (k, .str t) =>
    if t.data.contains 'T' then
      match pyFromIso t with
      | some d => (k, .dtval d)
      | none => (k, .jval (.str t))
    else (k, .jval (.str t))
  | (k, v) => (k, .jval v)

/-- Embedding of `_deserialize(data, User)`: `json.loads`, then for a dict
tagged `"__model__"`: pop the tag, convert ISO-like strings to datetimes and
`setattr` the entries onto a bare instance. -/
def _deserialize (s : String) : Option DeserResult :=
  match json_loads s with
  | none => none
  | some .null => some .pynone
  | some (.obj fields) =>
    let d := dictOf fields
    if hasKey d "__model__" then some (.inst ((dpop d "__model__").map convertEntry))
    else some (.plain (.obj d))
  | some v => some (.plain v)

/-- The attribute dict the claim expects the roundtrip to restore: exactly
the row's fields. -/
def ormAttrs (u : OrmUser) : List (String × Attr) :=
  [("id", .jval (.num u.id)), ("telegram_id", .jval (.num u.telegram_id)),
   ("username", .jval (jsonOfOptStr u.username)),
   ("first_name", .jval (jsonOfOptStr u.first_name)),
   ("last_name", .jval (jsonOfOptStr u.last_name)),
   ("created_at", .dtval u.created_at), ("updated_at", .dtval u.updated_at)]

/-- The ranges Python `datetime` enforces on construction. -/
def ValidDT (dt : PyDateTime) : Prop :=
  1 ≤ dt.year ∧ dt.year ≤ 9999 ∧ 1 ≤ dt.month ∧ dt.month ≤ 12
  ∧ 1 ≤ dt.day ∧ dt.day ≤ daysInMonth dt.year dt.month
  ∧ dt.hour ≤ 23 ∧ dt.minute ≤ 59 ∧ dt.second ≤ 59 ∧ dt.microsecond ≤ 999999

/-- An optional string column that does not itself look like an ISO
timestamp (contain `"T"` and parse with `fromisoformat`). -/
def goodOptStr : Option String → Prop
  | none => True
  | some s => ¬(s.data.contains 'T' = true ∧ (pyFromIso s).isSome = true)

/-! ## Lemmas and claim theorems -/

theorem cltB_irrefl (a : List Char) : cltB a a = false := by
  induction a with
  | nil => rfl
  | cons x xs ih => simp [cltB, lt_irrefl, ih]

theorem cltB_asymm : ∀ {a b : List Char}, cltB a b = true → cltB b a = false
  | [], [], h => by simp [cltB] at h
  | [], _ :: _, _ => rfl
  | _ :: _, [], h => by simp [cltB] at h
  | x :: xs, y :: ys, h => by
    by_cases hxy : x < y
    · simp [cltB, hxy, asymm hxy]
    · by_cases hyx : y < x
      · simp [cltB, hxy, hyx] at h
      · simp [cltB, hxy, hyx] at h ⊢
        exact cltB_asymm h

theorem cltB_eq_of_not : ∀ {a b : List Char}, cltB a b = false → cltB b a = false → a = b
  | [], [], _, _ => rfl
  | [], _ :: _, h, _ => by simp [cltB] at h
  | _ :: _, [], _, h => by simp [cltB] at h
  | x :: xs, y :: ys, h1, h2 => by
    by_cases hxy : x < y
    · simp [cltB, hxy] at h1
    · by_cases hyx : y < x
      · simp [cltB, hyx] at h2
      · have hx : x = y := le_antisymm (le_of_not_lt hyx) (le_of_not_lt hxy)
        simp [cltB, hxy, hyx] at h1 h2
        exact by rw [hx, cltB_eq_of_not h1 h2]

theorem cltB_trans : ∀ {a b c : List Char},
    cltB a b = true → cltB b c = true → cltB a c = true
  | [], [], _, h, _ => by simp [cltB] at h
  | [], _ :: _, [], _, h => by simp [cltB] at h
  | [], _ :: _, _ :: _, _, _ => rfl
  | _ :: _, [], _, h, _ => by simp [cltB] at h
  | _ :: _, _ :: _, [], _, h => by simp [cltB] at h
  | x :: xs, y :: ys, z :: zs, h1, h2 => by
    by_cases hxy : x < y
    · by_cases hyz : y < z
      · simp [cltB, lt_trans hxy hyz]
      · by_cases hzy : z < y
        · simp [cltB, hyz, hzy] at h2
        · have : y = z := le_antisymm (le_of_not_lt hzy) (le_of_not_lt hyz)
          simp [cltB, this ▸ hxy]
    · by_cases hyx : y < x
      · simp [cltB, hxy, hyx] at h1
      · have hx : x = y := le_antisymm (le_of_not_lt hyx) (le_of_not_lt hxy)
        simp [cltB, hxy, hyx] at h1
        subst hx
        by_cases hxz : x < z
        · simp [cltB, hxz]
        · by_cases hzx : z < x
          · simp [cltB, hxz, hzx] at h2
          · simp [cltB, hxz, hzx] at h2 ⊢
            exact cltB_trans h1 h2

theorem str_eq_of_data_eq {a b : String} (h : a.data = b.data) : a = b := by
  cases a; cases b; exact congrArg String.mk h

instance : IsTotal (String × String) pairLeR where
  total p q := by
    rcases h1 : cltB p.1.data q.1.data with _ | _
    · rcases h2 : cltB q.1.data p.1.data with _ | _
      · have hk : p.1 = q.1 := str_eq_of_data_eq (cltB_eq_of_not h1 h2)
        rcases h3 : cltB q.2.data p.2.data with _ | _
        · exact Or.inl (Or.inr ⟨hk, by simp [strLeB, h3]⟩)
        · exact Or.inr (Or.inr ⟨hk.symm, by simp [strLeB, cltB_asymm h3]⟩)
      · exact Or.inr (Or.inl h2)
    · exact Or.inl (Or.inl h1)

/-- In the order given by `cltB`, not-less-than is transitive. -/
theorem cltB_nlt_trans {a b c : List Char} (h1 : cltB b a = false)
    (h2 : cltB c b = false) : cltB c a = false := by
  rcases h3 : cltB b c with _ | _
  · have hbc : b = c := cltB_eq_of_not h3 h2
    rw [← hbc]; exact h1
  · rcases h4 : cltB c a with _ | _
    · rfl
    · have h5 := cltB_trans h3 h4
      rw [h1] at h5
      simp at h5

instance : IsTrans (String × String) pairLeR where
  trans p q r h1 h2 := by
    rcases h1 with h1 | ⟨hk1, hv1⟩
    · rcases h2 with h2 | ⟨hk2, _⟩
      · exact Or.inl (cltB_trans h1 h2)
      · exact Or.inl (hk2 ▸ h1)
    · rcases h2 with h2 | ⟨hk2, hv2⟩
      · exact Or.inl (hk1 ▸ h2)
      · refine Or.inr ⟨hk1.trans hk2, ?_⟩
        simp only [strLeB, Bool.not_eq_true'] at hv1 hv2 ⊢
        exact cltB_nlt_trans hv1 hv2

instance : IsAntisymm (String × String) pairLeR where
  antisymm p q h1 h2 := by
    rcases h1 with h1 | ⟨hk1, hv1⟩
    · rcases h2 with h2 | ⟨hk2, _⟩
      · rw [cltB_asymm h2] at h1; exact absurd h1 (by simp)
      · rw [hk2, cltB_irrefl] at h1; exact absurd h1 (by simp)
    · rcases h2 with h2 | ⟨hk2, hv2⟩
      · rw [hk1, cltB_irrefl] at h2; exact absurd h2 (by simp)
      · simp only [strLeB, Bool.not_eq_true'] at hv1 hv2
        have hv : p.2 = q.2 := str_eq_of_data_eq (cltB_eq_of_not hv2 hv1)
        cases p; cases q; cases hk1; cases hv; rfl

instance : IsTotal (String × String) keyLeR where
  total p q := by
    rcases h : cltB q.1.data p.1.data with _ | _
    · exact Or.inl h
    · exact Or.inr (cltB_asymm h)

instance : IsTrans (String × String) keyLeR where
  trans _ _ _ h1 h2 := cltB_nlt_trans h1 h2

/-- With pairwise-distinct keys the two sorts agree. -/
theorem insertionSort_pair_eq_key (l : List (String × String))
    (h : (l.map Prod.fst).Nodup) :
    List.insertionSort pairLeR l = List.insertionSort keyLeR l := by
  have hperm : (List.insertionSort pairLeR l).Perm (List.insertionSort keyLeR l) :=
    (List.perm_insertionSort pairLeR l).trans (List.perm_insertionSort keyLeR l).symm
  have hs1 : List.Sorted pairLeR (List.insertionSort pairLeR l) :=
    List.sorted_insertionSort pairLeR l
  have hkey : List.Sorted keyLeR (List.insertionSort keyLeR l) :=
    List.sorted_insertionSort keyLeR l
  have hnd : ((List.insertionSort keyLeR l).map Prod.fst).Nodup :=
    h.perm ((List.perm_insertionSort keyLeR l).map Prod.fst).symm
  have hne : List.Pairwise (fun p q : String × String => p.1 ≠ q.1)
      (List.insertionSort keyLeR l) := List.pairwise_map.mp hnd
  have hs2 : List.Sorted pairLeR (List.insertionSort keyLeR l) := by
    refine (hkey.and hne).imp ?_
    rintro p q ⟨hle, hne2⟩
    rcases h3 : cltB p.1.data q.1.data with _ | _
    · exact absurd (str_eq_of_data_eq (cltB_eq_of_not h3 hle)) hne2
    · exact Or.inl h3
  exact List.eq_of_perm_of_sorted hperm hs1 hs2

/-- With pairwise-distinct keys, the payload dict's check string equals the
spec's key-sorted check string. -/
theorem data_check_string_eq_spec (data : List (String × String))
    (h : (data.map Prod.fst).Nodup) :
    data_check_string data = spec_check_string data := by
  unfold data_check_string spec_check_string
  rw [insertionSort_pair_eq_key data h]

theorem hexChar_ascii : ∀ n < 16, (hexChar n).toNat ≤ 127 := by decide

theorem beBytes_lt (k n : Nat) : ∀ b ∈ beBytes k n, b < 256 := by
  induction k generalizing n with
  | zero => simp [beBytes]
  | succ k ih =>
    intro b hb
    simp only [beBytes, List.mem_append, List.mem_singleton] at hb
    rcases hb with hb | rfl
    · exact ih _ _ hb
    · exact Nat.mod_lt _ (by norm_num)

theorem sha256_lt (msg : List Nat) : ∀ b ∈ sha256 msg, b < 256 := by
  unfold sha256
  generalize (chunks64 (sha256Pad msg)).foldl sha256Block sha256H0 = ws
  induction ws with
  | nil => simp
  | cons w ws ih =>
    intro b hb
    simp only [List.foldr_cons, List.mem_append] at hb
    rcases hb with hb | hb
    · exact beBytes_lt 4 w b hb
    · exact ih b hb

theorem hmacSha256_lt (key msg : List Nat) : ∀ b ∈ hmacSha256 key msg, b < 256 :=
  sha256_lt _

theorem hexDigest_isAscii (bytes : List Nat) (h : ∀ b ∈ bytes, b < 256) :
    isAsciiStr (hexDigest bytes) = true := by
  simp only [isAsciiStr, hexDigest, List.all_eq_true, List.mem_flatten, List.mem_map]
  rintro c ⟨l, ⟨b, hb, rfl⟩, hc⟩
  have hb256 := h b hb
  have hdiv : b / 16 < 16 := Nat.div_lt_of_lt_mul (by omega)
  have hmod : b % 16 < 16 := Nat.mod_lt _ (by norm_num)
  simp only [List.mem_cons, List.not_mem_nil, or_false] at hc
  rcases hc with rfl | rfl
  · exact decide_eq_true (hexChar_ascii _ hdiv)
  · exact decide_eq_true (hexChar_ascii _ hmod)

theorem spec_sign_isAscii (bt : String) (data : List (String × String)) :
    isAsciiStr (spec_sign bt data) = true :=
  hexDigest_isAscii _ (hmacSha256_lt _ _)

/-- Computation step of `validate_signature` for a configured token. -/
theorem validate_signature_eq (bt : String) (data : List (String × String))
    (rh : String) (hbt : bt ≠ "") :
    validate_signature bt data rh =
      (if isAsciiStr (hexDigest (hmacSha256
            (hmacSha256 (utf8Encode "WebAppData") (utf8Encode bt))
            (utf8Encode (data_check_string data)))) && isAsciiStr rh
       then .ok (hexDigest (hmacSha256
            (hmacSha256 (utf8Encode "WebAppData") (utf8Encode bt))
            (utf8Encode (data_check_string data))) == rh)
       else .error "TypeError: comparing strings with non-ASCII characters") := by
  unfold validate_signature
  rw [if_neg hbt]

theorem spec_sign_def (bt : String) (data : List (String × String)) :
    hexDigest (hmacSha256 (hmacSha256 (utf8Encode "WebAppData") (utf8Encode bt))
      (utf8Encode (spec_check_string data))) = spec_sign bt data := rfl

/-- C1: `validate_signature(data, received_hash)` returns true if and only if
`received_hash` equals the lowercase hex HMAC-SHA256 digest of the canonical
check string (entries of `data` as `key=value` lines, sorted ascending by
key, joined by newlines) under the key `HMAC-SHA256("WebAppData", bot_secret)`;
and signing a payload per this algorithm and then verifying yields true, for
every payload (with distinct keys, as `data` is a dict) and non-empty secret. -/
theorem C1_validate_signature_iff_spec_sign (bt : String)
    (data : List (String × String)) (rh : String) (hbt : bt ≠ "")
    (hnd : (data.map Prod.fst).Nodup) :
    (validate_signature bt data rh = .ok true ↔ rh = spec_sign bt data)
    ∧ validate_signature bt data (spec_sign bt data) = .ok true := by
  have hcs : data_check_string data = spec_check_string data :=
    data_check_string_eq_spec data hnd
  have hsig : hexDigest (hmacSha256 (hmacSha256 (utf8Encode "WebAppData") (utf8Encode bt))
      (utf8Encode (data_check_string data))) = spec_sign bt data := by
    rw [hcs]; exact spec_sign_def bt data
  have hascii := spec_sign_isAscii bt data
  constructor
  · rw [validate_signature_eq bt data rh hbt, hsig, hascii]
    simp only [Bool.true_and]
    rcases hrh : isAsciiStr rh with _ | _
    · rw [if_neg (by simp : ¬ (false = true))]
      constructor
      · intro h; exact absurd h (by simp)
      · intro h
        rw [h, hascii] at hrh
        exact absurd hrh (by simp)
    · rw [if_pos rfl]
      simp only [Except.ok.injEq, beq_iff_eq]
      exact ⟨fun h => h.symm, fun h => h.symm⟩
  · rw [validate_signature_eq bt data (spec_sign bt data) hbt, hsig, hascii]
    simp

theorem C1_validate_signature_iff_spec_sign_witness :
    validate_signature "x" [("b", "2"), ("a", "1")]
        (spec_sign "x" [("b", "2"), ("a", "1")]) = .ok true :=
  (C1_validate_signature_iff_spec_sign "x" [("b", "2"), ("a", "1")] ""
    (by decide) (by decide)).2

/-- C7: with an empty/unset bot secret, `validate_signature` raises the
configuration error `ValueError("bot_token not configured")` for every
payload and received hash — it never returns an ordinary boolean verification
result. -/
theorem C7_empty_secret_raises (data : List (String × String)) (rh : String) :
    validate_signature "" data rh = .error "bot_token not configured"
    ∧ ∀ b : Bool, validate_signature "" data rh ≠ .ok b := by
  constructor
  · unfold validate_signature
    rw [if_pos rfl]
  · intro b h
    unfold validate_signature at h
    rw [if_pos rfl] at h
    exact absurd h (by simp)

/-- C5: `check_expiration` is a total function (never raises): non-numeric
`auth_date` yields `false`; numeric `auth_date` yields `true` exactly when
`now - auth_date <= max_age_seconds`; timestamps 86400 seconds old pass a
86400-second window, 86401-second-old ones fail, and future timestamps are
accepted. -/
theorem C5_check_expiration_fresh_iff (now maxAge : Int) (s : String) :
    (pyIntParse s = none → check_expiration now s maxAge = false)
    ∧ (∀ t : Int, pyIntParse s = some t →
        (check_expiration now s maxAge = true ↔ now - t ≤ maxAge))
    ∧ (∀ t : Int, pyIntParse s = some t → t = now - 86400 →
        check_expiration now s 86400 = true)
    ∧ (∀ t : Int, pyIntParse s = some t → t = now - 86401 →
        check_expiration now s 86400 = false)
    ∧ (∀ t : Int, pyIntParse s = some t → now < t → 0 ≤ maxAge →
        check_expiration now s maxAge = true) := by
  refine ⟨?_, ?_, ?_, ?_, ?_⟩
  · intro h; unfold check_expiration; rw [h]
  · intro t h; unfold check_expiration; rw [h]
    exact ⟨of_decide_eq_true, fun hp => decide_eq_true hp⟩
  · intro t h ht
    unfold check_expiration
    rw [h]
    exact decide_eq_true (by omega)
  · intro t h ht
    unfold check_expiration
    rw [h]
    simp only [decide_eq_false_iff_not]
    omega
  · intro t h ht hm
    unfold check_expiration
    rw [h]
    exact decide_eq_true (by omega)

theorem C5_check_expiration_fresh_iff_witness :
    check_expiration 1700000000 "1699913600" 86400 = true
    ∧ check_expiration 1700000000 "1699913599" 86400 = false
    ∧ check_expiration 1700000000 "1700000100" 86400 = true
    ∧ check_expiration 1700000000 "not-a-number" 86400 = false :=
  ⟨(C5_check_expiration_fresh_iff 1700000000 86400 "1699913600").2.2.1
      1699913600 (by decide) (by decide),
   (C5_check_expiration_fresh_iff 1700000000 86400 "1699913599").2.2.2.1
      1699913599 (by decide) (by decide),
   (C5_check_expiration_fresh_iff 1700000000 86400 "1700000100").2.2.2.2
      1700000100 (by decide) (by decide) (by decide),
   (C5_check_expiration_fresh_iff 1700000000 86400 "not-a-number").1 (by decide)⟩

/-- C3 counterexample: on the inputs `"a="` and `"a=b+c"` the code
disagrees with the claimed decoding rule.  A segment with an empty value is
dropped entirely (not kept as an empty string), and `+` is decoded to a
space rather than being left alone by percent-decoding. -/
theorem C3_counterexample_blank_value_and_plus :
    parse_init_data "a=" = [] ∧ parseSpecC3 "a=" = [("a", "")]
    ∧ parse_init_data "a=" ≠ parseSpecC3 "a="
    ∧ parse_init_data "a=b+c" = [("a", "b c")] ∧ parseSpecC3 "a=b+c" = [("a", "b+c")]
    ∧ parse_init_data "a=b+c" ≠ parseSpecC3 "a=b+c" := by
  exact ⟨by decide, by decide, by decide, by decide, by decide, by decide⟩

theorem splitAmp_cons (c : Char) (cs : List Char) :
    splitAmp (c :: cs) = if c = '&' then [] :: splitAmp cs
      else match splitAmp cs with
        | a :: as => (c :: a) :: as
        | [] => [[c]] := rfl

theorem dropWhile_length_le (p : Char → Bool) (l : List Char) :
    (l.dropWhile p).length ≤ l.length := by
  induction l with
  | nil => simp
  | cons c cs ih =>
    rw [List.dropWhile_cons]
    split
    · exact le_trans ih (by simp)
    · exact le_refl _

theorem splitAmp_take (cs : List Char) :
    splitAmp cs = cs.takeWhile (fun c => !(c = '&')) ::
      (match cs.dropWhile (fun c => !(c = '&')) with
       | [] => ([] : List (List Char))
       | _ :: rest => splitAmp rest) := by
  induction cs with
  | nil => rfl
  | cons c cs ih =>
    by_cases hc : c = '&'
    · subst hc
      rw [splitAmp_cons, if_pos rfl]
      simp [List.takeWhile_cons, List.dropWhile_cons]
    · rw [splitAmp_cons, if_neg hc, ih]
      simp [List.takeWhile_cons, List.dropWhile_cons, hc]

theorem specSplitAmp_eq : ∀ (fuel : Nat) (cs : List Char), cs.length < fuel →
    specSplitAmp fuel cs = splitAmp cs := by
  intro fuel
  induction fuel with
  | zero => exact fun cs h => absurd h (Nat.not_lt_zero _)
  | succ fuel ih =>
    intro cs h
    rw [splitAmp_take cs]
    simp only [specSplitAmp]
    cases hd : cs.dropWhile (fun c => !(c = '&')) with
    | nil => rfl
    | cons d rest =>
      have hlen : rest.length < fuel := by
        have hle := dropWhile_length_le (fun c => !(c = '&')) cs
        rw [hd] at hle
        simp at hle
        omega
      simp only [ih rest hlen]

theorem partitionEq_eq (seg : List Char) :
    partitionEq seg = if seg.contains '=' then
      some (seg.takeWhile (fun c => !(c = '=')),
        (seg.dropWhile (fun c => !(c = '='))).drop 1)
    else none := by
  induction seg with
  | nil => rfl
  | cons c cs ih =>
    by_cases hc : c = '='
    · subst hc
      simp [partitionEq, List.contains_cons, List.takeWhile_cons, List.dropWhile_cons]
    · rw [partitionEq.eq_def]
      split
      · rename_i heq
        exact absurd heq (List.cons_ne_nil _ _)
      · rename_i rest heq
        injection heq with h1 h2
        exact absurd h1 hc
      · rename_i c2 rest hne heq
        injection heq with h1 h2
        subst h1
        subst h2
        rw [ih]
        by_cases hcs : cs.contains '=' = true
        · have hmem : '=' ∈ cs := by simpa using hcs
          rw [if_pos hcs]
          simp [List.contains_cons, List.takeWhile_cons, List.dropWhile_cons, hc, hcs]
          exact Or.inr hmem
        · have hcsf : cs.contains '=' = false := by
            cases hx : cs.contains '=' with
            | false => rfl
            | true => exact absurd hx hcs
          have hnm : ¬('=' ∈ cs) := by simpa using hcsf
          have hnor : ¬('=' = c ∨ '=' ∈ cs) := fun hor => hor.elim (fun h => hc h.symm) hnm
          simp [List.contains_cons, hc, hcsf]
          rw [if_neg hnor]
          rw [if_neg hnm]

theorem specDecode_eq (l : List Char) : specDecode l = unquote (replacePlus ⟨l⟩) := rfl

theorem specPair_eq (seg : List Char) : specPair seg = qslPair seg := by
  by_cases hc : seg.contains '=' = true
  · have hne : seg ≠ [] := by
      intro h
      subst h
      simp at hc
    unfold specPair qslPair specDropSeg
    rw [partitionEq_eq, if_pos hc, if_neg hne]
    have hie : seg.isEmpty = false := by
      cases seg with
      | nil => exact absurd rfl hne
      | cons c cs => rfl
    by_cases hv : (seg.dropWhile (fun c => !(c = '='))).drop 1 = []
    · simp [hie, hc, hv]
    · have hmem : '=' ∈ seg := by simpa using hc
      have hv' : ¬((seg.dropWhile (fun c => !(c = '='))).tail = []) := by
        simpa using hv
      have hnor : ¬('=' ∉ seg ∨ (seg.dropWhile (fun c => !(c = '='))).tail = []) :=
        fun hor => hor.elim (fun h => h hmem) hv'
      simp [hie, hc, specDecode_eq]
      rw [if_neg hnor, if_neg hv']
  · have hcf : seg.contains '=' = false := by
      cases hx : seg.contains '=' with
      | false => rfl
      | true => exact absurd hx hc
    unfold specPair qslPair specDropSeg
    rw [partitionEq_eq, if_neg hc]
    cases seg with
    | nil => rfl
    | cons c cs =>
      simp [hcf]
      intro h1
      have hboth : ¬('=' = c) ∧ ¬('=' ∈ cs) := by simpa using hcf
      exact absurd (h1 hboth.1) hboth.2

theorem beq_decide (a b : String) : (a == b) = decide (a = b) := by
  by_cases h : a = b <;> simp [h]

theorem specLastWins_eq (l : List (String × String)) : specLastWins l = dictOf l := by
  unfold specLastWins dictOf
  congr 1
  funext acc p
  unfold dictInsert
  simp only [beq_decide]
  split
  · congr 1
    funext q
    by_cases h : q.1 = p.1 <;> simp [h]
  · rfl

/-- C3 (amended): for every input string, `parse_init_data` agrees with the
rule of the amended claim, formalised from its words (`specSplitAmp`,
`specPair`, `specLastWins`): split on `&`, drop empty segments, segments
without `=` and segments whose value part is empty, replace `+` by a space
in key and value, percent-decode both, and keep the last occurrence for
duplicate keys; the claim's two examples hold as stated. -/
theorem C3_parse_init_data_amended (s : String) :
    parse_init_data s = parse_init_data_specAmended s
    ∧ parse_init_data "a=1&b=2&hash=abc" = [("a", "1"), ("b", "2"), ("hash", "abc")]
    ∧ parse_init_data "a=1&a=2" = [("a", "2")] := by
  refine ⟨?_, by decide, by decide⟩
  unfold parse_init_data parse_qsl parse_init_data_specAmended
  rw [specLastWins_eq, specSplitAmp_eq (s.data.length + 1) s.data (by omega),
    show specPair = qslPair from funext specPair_eq]

/-- The debug bypass: when the token splits on `;` into exactly
`[debug_token, rest]`, `get_current_user` returns `int(rest)` directly. -/
theorem get_current_user_bypass (store : GateStore) (bt debug s2 token : String)
    (now : Int) (hd : debug ≠ "") (hsplit : pySplit token ';' = [debug, s2]) :
    get_current_user store bt debug now token =
      match pyIntParse s2 with
      | some n => .ok n
      | none => .error .uncaughtValueError := by
  have htok : token ≠ "" := by
    intro heq
    rw [heq] at hsplit
    simp [pySplit, splitSep] at hsplit
  have hb : (debug != "") = true := by simp [hd]
  unfold get_current_user
  rw [if_neg htok, hsplit]
  simp [hb]

/-- C2: with a non-empty configured debug token, a token of the exact shape
`"<debug_token>;<second>"` short-circuits: the result is `int(second)`,
independent of the store, the bot token and the clock (so no parsing,
signature or freshness check and no store call can influence it); a
non-integer second segment raises `ValueError` (a failure, not a silent
default); with an empty debug token the bypass never fires and the gate
proceeds to the main chain; concretely, `"devkey;notanum"` under debug token
`"devkey"` fails even with an unreachable store. -/
theorem C2_debug_bypass_behavior (store store2 : GateStore) (bt bt2 debug s2 token : String)
    (now now2 : Int) (hd : debug ≠ "") (hsplit : pySplit token ';' = [debug, s2]) :
    (∀ n : Int, pyIntParse s2 = some n →
      get_current_user store bt debug now token = .ok n
      ∧ get_current_user store bt debug now token
          = get_current_user store2 bt2 debug now2 token)
    ∧ (pyIntParse s2 = none →
      get_current_user store bt debug now token = .error .uncaughtValueError)
    ∧ (∀ (store3 : GateStore) (bt3 token3 : String) (now3 : Int),
        get_current_user store3 bt3 "" now3 token3 =
          if token3 = "" then .error .unauthenticated
          else gate_main store3 bt3 now3 token3)
    ∧ get_current_user (fun _ _ _ _ => .error ()) bt "devkey" now "devkey;notanum"
        = .error .uncaughtValueError := by
  refine ⟨?_, ?_, ?_, ?_⟩
  · intro n hn
    constructor
    · rw [get_current_user_bypass store bt debug s2 token now hd hsplit, hn]
    · rw [get_current_user_bypass store bt debug s2 token now hd hsplit,
        get_current_user_bypass store2 bt2 debug s2 token now2 hd hsplit]
  · intro hn
    rw [get_current_user_bypass store bt debug s2 token now hd hsplit, hn]
  · intro store3 bt3 token3 now3
    unfold get_current_user
    by_cases h : token3 = ""
    · simp [h]
    · simp [h]
  · rfl

theorem C2_debug_bypass_behavior_witness :
    get_current_user (fun _ _ _ _ => Except.error ()) "" "devkey" 0 "devkey;7"
      = .ok 7 :=
  ((C2_debug_bypass_behavior (fun _ _ _ _ => Except.error ())
      (fun _ _ _ _ => Except.error ()) "" "" "devkey" "7" "devkey;7" 0 0
      (by decide) (by decide)).1 7 (by decide)).1

/-- C4 counterexample: `"42"` is valid JSON whose decoded value lacks any
identity field, yet the code raises an untyped `AttributeError`
(`user_data.get` on an `int`) instead of the typed `MissingUserId`
failure the claim requires. -/
theorem C4_counterexample_nonobject_user :
    extract_user_step (fun _ _ _ _ => .error ()) "42" = .error .uncaughtAttributeError
    ∧ (json_loads "42").isSome = true
    ∧ AuthError.uncaughtAttributeError ≠ AuthError.missingUserId :=
  ⟨rfl, rfl, by decide⟩

/-- C4 (amended): user extraction fails with `InvalidUserPayload` exactly
when the `user` value is not valid JSON; when the decoded JSON is an object,
it fails with `MissingUserId` exactly when the object lacks a truthy `id`
(so `id: 0` or a missing `id` is a typed failure); a decoded non-object JSON
value raises an untyped `AttributeError` instead of a typed failure; with a
truthy `id`, authentication proceeds with the extracted identity value
handed to the store. -/
theorem C4_extract_user_amended (store : GateStore) (s : String) :
    (extract_user_step store s = .error .invalidUserPayload ↔ json_loads s = none)
    ∧ (∀ fields, json_loads s = some (.obj fields) →
        (extract_user_step store s = .error .missingUserId
          ↔ ((jget fields "id").map jtruthy).getD false = false))
    ∧ (∀ v, json_loads s = some v → jIsObj v = false →
        extract_user_step store s = .error .uncaughtAttributeError)
    ∧ (∀ fields, json_loads s = some (.obj fields) →
        ((jget fields "id").map jtruthy).getD false = true →
        extract_user_step store s =
          match store ((jget fields "id").getD .null) (jget fields "username")
              (jget fields "first_name") (jget fields "last_name") with
          | .ok uid => .ok uid
          | .error _ => .error .storeError) := by
  refine ⟨?_, ?_, ?_, ?_⟩
  · unfold extract_user_step
    rcases h : json_loads s with _ | v
    · simp
    · rcases v with _ | b | n | st | l | fields
      · simp
      · simp
      · simp
      · simp
      · simp
      · by_cases hid : ((jget fields "id").map jtruthy).getD false
        · simp only [hid, Bool.not_true, Bool.false_eq_true, if_false]
          rcases hst : store ((jget fields "id").getD .null) (jget fields "username")
              (jget fields "first_name") (jget fields "last_name") with u | e
          · simp
          · simp
        · simp only [Bool.not_eq_true] at hid
          simp [hid]
  · intro fields h
    unfold extract_user_step
    rw [h]
    by_cases hid : ((jget fields "id").map jtruthy).getD false
    · simp only [hid, Bool.not_true, Bool.false_eq_true, if_false]
      rcases hst : store ((jget fields "id").getD .null) (jget fields "username")
          (jget fields "first_name") (jget fields "last_name") with u | e
      · simp [hid]
      · simp [hid]
    · simp only [Bool.not_eq_true] at hid
      simp [hid]
  · intro v h hobj
    unfold extract_user_step
    rw [h]
    rcases v with _ | b | n | st | l | fields
    · rfl
    · rfl
    · rfl
    · rfl
    · rfl
    · simp [jIsObj] at hobj
  · intro fields h hid
    unfold extract_user_step
    rw [h]
    simp [hid]

theorem C4_extract_user_amended_witness :
    extract_user_step (fun _ _ _ _ => Except.ok 7) "\x7b\"id\": 0\x7d"
      = .error .missingUserId :=
  ((C4_extract_user_amended (fun _ _ _ _ => Except.ok 7) "\x7b\"id\": 0\x7d").2.1
    [("id", .num 0)] rfl).mpr rfl

theorem extract_user_step_ne_malformed (store : GateStore) (s : String) :
    extract_user_step store s ≠ .error .malformedToken := by
  intro h
  unfold extract_user_step at h
  repeat (any_goals (first | split at h | simp only [] at h))
  all_goals simp_all

theorem gate_ok_branch_ne_malformed (store : GateStore) (bt : String) (now : Int)
    (d : List (String × String)) :
    gate_ok_branch store bt now d ≠ .error .malformedToken := by
  intro h
  unfold gate_ok_branch at h
  repeat (any_goals (first | split at h | simp only [] at h))
  all_goals first
    | exact extract_user_step_ne_malformed store _ h
    | simp_all

theorem gate_main_ne_malformed (store : GateStore) (bt : String) (now : Int)
    (token : String) : gate_main store bt now token ≠ .error .malformedToken :=
  gate_ok_branch_ne_malformed store bt now (parse_init_data token)

/-- C10: `parse_init_data` is the total function `dict(parse_qsl(...))` —
`parse_qsl` with default arguments returns a pair list for every string and
never raises — so the gate's `MalformedToken` branch
(`"Invalid init data format"`) is unreachable: no input token makes
`get_current_user` fail with it. -/
theorem C10_malformed_token_unreachable (store : GateStore)
    (bt debug : String) (now : Int) (token : String) :
    get_current_user store bt debug now token ≠ .error .malformedToken := by
  intro h
  unfold get_current_user at h
  repeat (any_goals (first | split at h | simp only [] at h))
  all_goals first
    | exact gate_main_ne_malformed store bt now token h
    | simp_all

/-- The update block writes exactly the non-null changed fields, keeps the
primary key and identity, and reports `needs_update = false` exactly when
nothing would change (in which case the row is untouched). -/
theorem reconcile_spec (u : DbUser) (un fn ln : Option String) :
    (reconcile u un fn ln).1.id = u.id
    ∧ (reconcile u un fn ln).1.telegram_id = u.telegram_id
    ∧ (reconcile u un fn ln).1.username = pyMerge un u.username
    ∧ (reconcile u un fn ln).1.first_name = pyMerge fn u.first_name
    ∧ (reconcile u un fn ln).1.last_name = pyMerge ln u.last_name
    ∧ ((reconcile u un fn ln).2 = false ↔
        u.username = pyMerge un u.username ∧ u.first_name = pyMerge fn u.first_name
        ∧ u.last_name = pyMerge ln u.last_name)
    ∧ ((reconcile u un fn ln).2 = false → (reconcile u un fn ln).1 = u) := by
  rcases un with _ | v1 <;> rcases fn with _ | v2 <;> rcases ln with _ | v3 <;>
    simp [reconcile, pyMerge] <;> split_ifs <;> simp_all

/-- `get_or_create` on an existing row: no new row, same primary key,
non-null changed fields written, null or unchanged fields left alone, and
the database untouched when nothing changes. -/
theorem get_or_create_existing (db : Db) (tid : Int) (un fn ln : Option String)
    (u : DbUser) (hu : findByTelegramId db tid = some u) :
    ∃ u2 db2, get_or_create db tid un fn ln = .ok ((u2, false), db2)
      ∧ u2.id = u.id
      ∧ u2.telegram_id = u.telegram_id
      ∧ u2.username = pyMerge un u.username
      ∧ u2.first_name = pyMerge fn u.first_name
      ∧ u2.last_name = pyMerge ln u.last_name
      ∧ (u.username = pyMerge un u.username → u.first_name = pyMerge fn u.first_name →
          u.last_name = pyMerge ln u.last_name → u2 = u ∧ db2 = db) := by
  obtain ⟨hid, htid, hun, hfn, hln, hiff, hkeep⟩ := reconcile_spec u un fn ln
  have hstep : get_or_create db tid un fn ln =
      if (reconcile u un fn ln).2 then
        .ok (((reconcile u un fn ln).1, false), replaceUser db (reconcile u un fn ln).1)
      else .ok ((u, false), db) := by
    unfold get_or_create
    rw [hu]
  rw [hstep]
  rcases hf : (reconcile u un fn ln).2 with _ | _
  · refine ⟨u, db, by rw [if_neg (by simp [hf])], rfl, rfl, ?_, ?_, ?_, fun _ _ _ => ⟨rfl, rfl⟩⟩
    · have := (hiff.mp hf).1; rw [← this]
    · have := (hiff.mp hf).2.1; rw [← this]
    · have := (hiff.mp hf).2.2; rw [← this]
  · refine ⟨(reconcile u un fn ln).1, replaceUser db (reconcile u un fn ln).1,
      by rw [if_pos (by simp [hf])], hid, htid, hun, hfn, hln, ?_⟩
    intro h1 h2 h3
    have : (reconcile u un fn ln).2 = false := hiff.mpr ⟨h1, h2, h3⟩
    rw [this] at hf
    exact absurd hf (by simp)

theorem find_after_insert (db : Db) (tid : Int) (un fn ln : Option String)
    (hn : findByTelegramId db tid = none) :
    insertUser db tid un fn ln =
      .ok (⟨db.nextId, tid, un, fn, ln⟩, ⟨db.users ++ [⟨db.nextId, tid, un, fn, ln⟩], db.nextId + 1⟩)
    ∧ findByTelegramId ⟨db.users ++ [⟨db.nextId, tid, un, fn, ln⟩], db.nextId + 1⟩ tid
        = some ⟨db.nextId, tid, un, fn, ln⟩ := by
  have hall := List.find?_eq_none.mp hn
  have hany : db.users.any (fun u => u.telegram_id == tid) = false := by
    rw [List.any_eq_false]
    intro x hx
    simpa using hall x hx
  constructor
  · unfold insertUser
    rw [if_neg (by simp [hany])]
  · unfold findByTelegramId
    rw [List.find?_append]
    unfold findByTelegramId at hn
    rw [hn]
    simp

/-- C6: a second `get_or_create` call for an existing external identity
creates nothing and returns the same internal id as the original creation;
each of `username`/`first_name`/`last_name` is overwritten only when the
supplied value is non-null (a null supplied field never overwrites), and
when no supplied field is both non-null and different, the stored rows are
untouched. -/
theorem C6_get_or_create_update_only_changed (db : Db) (tid : Int)
    (un fn ln un2 fn2 ln2 : Option String) :
    (∀ u, findByTelegramId db tid = some u →
      ∃ u2 db2, get_or_create db tid un fn ln = .ok ((u2, false), db2)
        ∧ u2.id = u.id
        ∧ u2.username = pyMerge un u.username
        ∧ u2.first_name = pyMerge fn u.first_name
        ∧ u2.last_name = pyMerge ln u.last_name
        ∧ (u.username = pyMerge un u.username → u.first_name = pyMerge fn u.first_name →
            u.last_name = pyMerge ln u.last_name → u2 = u ∧ db2 = db))
    ∧ (findByTelegramId db tid = none →
      ∃ u1 db1, get_or_create db tid un fn ln = .ok ((u1, true), db1)
        ∧ u1.telegram_id = tid ∧ u1.username = un ∧ u1.first_name = fn ∧ u1.last_name = ln
        ∧ ∃ u2 db2, get_or_create db1 tid un2 fn2 ln2 = .ok ((u2, false), db2)
            ∧ u2.id = u1.id) := by
  constructor
  · intro u hu
    obtain ⟨u2, db2, heq, hid, _, h3, h4, h5, h6⟩ :=
      get_or_create_existing db tid un fn ln u hu
    exact ⟨u2, db2, heq, hid, h3, h4, h5, h6⟩
  · intro hn
    obtain ⟨hins, hfind⟩ := find_after_insert db tid un fn ln hn
    refine ⟨⟨db.nextId, tid, un, fn, ln⟩,
      ⟨db.users ++ [⟨db.nextId, tid, un, fn, ln⟩], db.nextId + 1⟩, ?_, rfl, rfl, rfl, rfl, ?_⟩
    · unfold get_or_create
      rw [hn, hins]
    · obtain ⟨u2, db2, heq, hid, _⟩ :=
        get_or_create_existing _ tid un2 fn2 ln2 _ hfind
      exact ⟨u2, db2, heq, hid⟩

theorem C6_get_or_create_update_only_changed_witness :
    ∃ u2 db2,
      get_or_create ⟨[⟨5, 42, some "bob", none, none⟩], 6⟩ 42 (some "ann") none none
        = .ok ((u2, false), db2)
      ∧ u2.id = 5 ∧ u2.username = some "ann" ∧ u2.last_name = none := by
  obtain ⟨u2, db2, heq, hid, hun, hfn, hln, _⟩ :=
    (C6_get_or_create_update_only_changed ⟨[⟨5, 42, some "bob", none, none⟩], 6⟩ 42
      (some "ann") none none none none none).1 ⟨5, 42, some "bob", none, none⟩ rfl
  exact ⟨u2, db2, heq, by rw [hid], by rw [hun]; rfl, by rw [hln]; rfl⟩

theorem countTid_replace (db : Db) (tid : Int) (u2 : DbUser)
    (h : ∀ w ∈ db.users, w.id = u2.id → w.telegram_id = tid)
    (htid : u2.telegram_id = tid) :
    countTid (replaceUser db u2) tid = countTid db tid := by
  unfold countTid replaceUser
  rw [List.countP_map]
  apply List.countP_congr
  intro w hw
  by_cases hid : w.id == u2.id
  · have hwid : w.id = u2.id := by simpa using hid
    simp [Function.comp, hid, htid, h w hw hwid]
  · simp [Function.comp, hid]

theorem wf_replace (db : Db) (u2 : DbUser) (hwf : WfDb db)
    (hlt : u2.id < db.nextId) : WfDb (replaceUser db u2) := by
  obtain ⟨hnd, hbound⟩ := hwf
  have hids : (replaceUser db u2).users.map DbUser.id = db.users.map DbUser.id := by
    unfold replaceUser
    simp only [List.map_map]
    apply List.map_congr_left
    intro w _
    by_cases hid : w.id == u2.id
    · have : w.id = u2.id := by simpa using hid
      simp [Function.comp, hid, this]
    · simp [Function.comp, hid]
  refine ⟨by rw [hids]; exact hnd, ?_⟩
  intro w hw
  rcases List.mem_map.mp hw with ⟨w0, hw0, rfl⟩
  by_cases hid : w0.id == u2.id
  · simpa [hid] using hlt
  · simpa [hid] using hbound w0 hw0

theorem wf_insert (db : Db) (tid : Int) (un fn ln : Option String) (hwf : WfDb db) :
    WfDb ⟨db.users ++ [⟨db.nextId, tid, un, fn, ln⟩], db.nextId + 1⟩ := by
  obtain ⟨hnd, hbound⟩ := hwf
  constructor
  · rw [List.map_append, List.nodup_append]
    refine ⟨hnd, List.nodup_singleton _, ?_⟩
    intro a ha hb
    simp only [List.map_cons, List.map_nil, List.mem_singleton] at hb
    rcases List.mem_map.mp ha with ⟨w, hw, rfl⟩
    exact absurd hb (Nat.ne_of_lt (hbound w hw))
  · intro w hw
    rcases List.mem_append.mp hw with h | h
    · exact Nat.lt_succ_of_lt (hbound w h)
    · simp only [List.mem_singleton] at h
      subst h
      exact Nat.lt_succ_self _

theorem countTid_insert (db : Db) (tid : Int) (un fn ln : Option String)
    (hnone : db.users.any (fun u => u.telegram_id == tid) = false) :
    countTid ⟨db.users ++ [⟨db.nextId, tid, un, fn, ln⟩], db.nextId + 1⟩ tid = 1 := by
  unfold countTid
  rw [List.countP_append]
  have h0 : db.users.countP (fun u => u.telegram_id == tid) = 0 := by
    rw [List.countP_eq_zero]
    intro a ha
    have := List.any_eq_false.mp hnone a ha
    simpa using this
  rw [h0]
  simp

theorem phOk_replace (db : Db) (tid : Int) (u2 : DbUser) (q : CallPhase)
    (hq : phOk db tid q) (htid : u2.telegram_id = tid) :
    phOk (replaceUser db u2) tid q := by
  cases q with
  | start => trivial
  | done r => trivial
  | selected fo =>
    cases fo with
    | none => trivial
    | some u2' =>
      obtain ⟨h1, h2, h3⟩ := hq
      refine ⟨h1, h2, ?_⟩
      intro w hw hid
      rcases List.mem_map.mp hw with ⟨w0, hw0, rfl⟩
      by_cases hidw : w0.id == u2.id
      · simpa [hidw] using htid
      · simp only [hidw, if_false] at hid ⊢
        exact h3 w0 hw0 hid

theorem phOk_insert (db : Db) (tid : Int) (un fn ln : Option String) (q : CallPhase)
    (hq : phOk db tid q) :
    phOk ⟨db.users ++ [⟨db.nextId, tid, un, fn, ln⟩], db.nextId + 1⟩ tid q := by
  cases q with
  | start => trivial
  | done r => trivial
  | selected fo =>
    cases fo with
    | none => trivial
    | some u2' =>
      obtain ⟨h1, h2, h3⟩ := hq
      refine ⟨h1, Nat.lt_succ_of_lt h2, ?_⟩
      intro w hw hid
      rcases List.mem_append.mp hw with h | h
      · exact h3 w h hid
      · simp only [List.mem_singleton] at h
        subst h
        exact absurd hid.symm (Nat.ne_of_lt h2)

/-- One step of either call preserves the two-call invariant. -/
theorem stepCall_inv (db : Db) (tid : Int) (un fn ln : Option String)
    (p q : CallPhase) (hwf : WfDb db) (hc : countTid db tid ≤ 1)
    (hp : phOk db tid p) (hq : phOk db tid q) :
    WfDb (stepCall db tid un fn ln p).2
    ∧ countTid (stepCall db tid un fn ln p).2 tid ≤ 1
    ∧ phOk (stepCall db tid un fn ln p).2 tid (stepCall db tid un fn ln p).1
    ∧ phOk (stepCall db tid un fn ln p).2 tid q := by
  cases p with
  | done r => exact ⟨hwf, hc, trivial, hq⟩
  | start =>
    refine ⟨hwf, hc, ?_, hq⟩
    rcases hf : findByTelegramId db tid with _ | u
    · simp [stepCall, hf, phOk]
    · simp only [stepCall, hf]
      have hmem := List.mem_of_find?_eq_some hf
      have htid : u.telegram_id = tid := by simpa using List.find?_some hf
      refine ⟨htid, hwf.2 u hmem, ?_⟩
      intro w hw hid
      have hwu : w = u := List.inj_on_of_nodup_map hwf.1 hw hmem hid
      rw [hwu, htid]
  | selected fo =>
    cases fo with
    | some u =>
      obtain ⟨htid, hlt, hall⟩ := hp
      have hrid : (reconcile u un fn ln).1.id = u.id := (reconcile_spec u un fn ln).1
      have hrtid : (reconcile u un fn ln).1.telegram_id = tid :=
        ((reconcile_spec u un fn ln).2.1).trans htid
      have hstep : stepCall db tid un fn ln (.selected (some u)) =
          (if (reconcile u un fn ln).2 then
            (.done (.ok ((reconcile u un fn ln).1.id, false)),
              replaceUser db (reconcile u un fn ln).1)
          else (.done (.ok (u.id, false)), db)) := rfl
      rcases hrec : (reconcile u un fn ln).2 with _ | _
      · rw [hstep, hrec]
        exact ⟨hwf, hc, trivial, hq⟩
      · rw [hstep, hrec]
        simp only [if_true]
        have hcnt : countTid (replaceUser db (reconcile u un fn ln).1) tid
            = countTid db tid := by
          apply countTid_replace db tid _ ?_ hrtid
          intro w hw hidw
          exact hall w hw (by rw [hidw, hrid])
        refine ⟨wf_replace db _ hwf (by rw [hrid]; exact hlt), ?_, trivial,
          phOk_replace db tid _ q hq hrtid⟩
        rw [hcnt]
        exact hc
    | none =>
      rcases hins : db.users.any (fun u => u.telegram_id == tid) with _ | _
      · have hstep : stepCall db tid un fn ln (.selected none) =
            (.done (.ok (db.nextId, true)),
              ⟨db.users ++ [⟨db.nextId, tid, un, fn, ln⟩], db.nextId + 1⟩) := by
          unfold stepCall insertUser
          rw [if_neg (by simp [hins])]
        rw [hstep]
        exact ⟨wf_insert db tid un fn ln hwf,
          le_of_eq (countTid_insert db tid un fn ln hins), trivial,
          phOk_insert db tid un fn ln q hq⟩
      · have hstep : stepCall db tid un fn ln (.selected none) =
            (.done (.error ()), db) := by
          unfold stepCall insertUser
          rw [if_pos hins]
        rw [hstep]
        exact ⟨hwf, hc, trivial, hq⟩

/-- Any interleaving of the two calls preserves the invariant. -/
theorem runSched_inv (tid : Int) (a1 a2 : Option String × Option String × Option String) :
    ∀ (sched : List Bool) (st : Db × CallPhase × CallPhase),
      InvSt tid st → InvSt tid (runSched tid a1 a2 sched st) := by
  intro sched
  induction sched with
  | nil => intro st h; exact h
  | cons b rest ih =>
    intro st h
    obtain ⟨hwf, hc, hp1, hp2⟩ := h
    rcases st with ⟨db, p1, p2⟩
    rcases b with _ | _
    · have hs := stepCall_inv db tid a2.1 a2.2.1 a2.2.2 p2 p1 hwf hc hp2 hp1
      exact ih _ ⟨hs.1, hs.2.1, hs.2.2.2, hs.2.2.1⟩
    · have hs := stepCall_inv db tid a1.1 a1.2.1 a1.2.2 p1 p2 hwf hc hp1 hp2
      exact ih _ ⟨hs.1, hs.2.1, hs.2.2.1, hs.2.2.2⟩

/-- C8 counterexample: under the interleaving select–select–insert–insert on
a brand-new identity, the second call does not return the same internal id —
its insert hits the unique index and raises `IntegrityError` (a store
error), while only one row is persisted. -/
theorem C8_counterexample_race :
    runSched 42 (some "ann", none, none) (some "ann", none, none)
        [true, false, true, false] (⟨[], 1⟩, .start, .start)
      = (⟨[⟨1, 42, some "ann", none, none⟩], 2⟩,
          .done (.ok (1, true)), .done (.error ()))
    ∧ (CallPhase.done (.error ()) ≠ .done (.ok (1, true))) :=
  ⟨rfl, by decide⟩

/-- C8 (amended): under every interleaving of two concurrent
`get_or_create` calls for the same external identity, at most one row for
that identity is ever persisted — the unique index on `telegram_id` forbids
duplicates; under the interleaving where the second select runs after the
first call's insert, both calls return the same internal id; but under
select–select–insert–insert the loser's insert raises `IntegrityError`
instead of returning that id. -/
theorem C8_no_duplicates_amended (tid : Int)
    (a1 a2 : Option String × Option String × Option String)
    (sched : List Bool) (db : Db) (hwf : WfDb db) (hc : countTid db tid ≤ 1) :
    countTid (runSched tid a1 a2 sched (db, .start, .start)).1 tid ≤ 1
    ∧ runSched 42 (some "ann", none, none) (some "bob", none, none)
        [true, true, false, false] (⟨[], 1⟩, .start, .start)
      = (⟨[⟨1, 42, some "bob", none, none⟩], 2⟩,
          .done (.ok (1, true)), .done (.ok (1, false))) := by
  refine ⟨?_, rfl⟩
  exact (runSched_inv tid a1 a2 sched (db, .start, .start) ⟨hwf, hc, trivial, trivial⟩).2.1

theorem C8_no_duplicates_amended_witness :
    countTid (runSched 42 (some "ann", none, none) (some "ann", none, none)
        [true, false, true, false] (⟨[], 1⟩, .start, .start)).1 42 ≤ 1 :=
  (C8_no_duplicates_amended 42 (some "ann", none, none) (some "ann", none, none)
    [true, false, true, false] ⟨[], 1⟩ (by constructor <;> simp [WfDb]) (by decide)).1

set_option maxRecDepth 10000 in
/-- C9 counterexample: a `User` whose `username` is the string
`"2024-01-01T00:00:00"` does not survive the cache roundtrip — the
deserializer turns the string attribute into a `datetime`, so a cached read
differs from a store read. -/
theorem C9_counterexample_iso_string_field :
    _deserialize (_serialize ⟨1, 2, some "2024-01-01T00:00:00", none, none,
      ⟨2024, 1, 1, 0, 0, 0, 0⟩, ⟨2024, 1, 1, 0, 0, 0, 0⟩⟩)
    = some (.inst [("id", .jval (.num 1)), ("telegram_id", .jval (.num 2)),
        ("username", .dtval ⟨2024, 1, 1, 0, 0, 0, 0⟩),
        ("first_name", .jval .null), ("last_name", .jval .null),
        ("created_at", .dtval ⟨2024, 1, 1, 0, 0, 0, 0⟩),
        ("updated_at", .dtval ⟨2024, 1, 1, 0, 0, 0, 0⟩)])
    ∧ _deserialize (_serialize ⟨1, 2, some "2024-01-01T00:00:00", none, none,
        ⟨2024, 1, 1, 0, 0, 0, 0⟩, ⟨2024, 1, 1, 0, 0, 0, 0⟩⟩)
      ≠ some (.inst (ormAttrs ⟨1, 2, some "2024-01-01T00:00:00", none, none,
          ⟨2024, 1, 1, 0, 0, 0, 0⟩, ⟨2024, 1, 1, 0, 0, 0, 0⟩⟩)) := by
  refine ⟨rfl, ?_⟩
  intro h
  rw [show _deserialize (_serialize ⟨1, 2, some "2024-01-01T00:00:00", none, none,
      ⟨2024, 1, 1, 0, 0, 0, 0⟩, ⟨2024, 1, 1, 0, 0, 0, 0⟩⟩)
    = some (.inst [("id", .jval (.num 1)), ("telegram_id", .jval (.num 2)),
        ("username", .dtval ⟨2024, 1, 1, 0, 0, 0, 0⟩),
        ("first_name", .jval .null), ("last_name", .jval .null),
        ("created_at", .dtval ⟨2024, 1, 1, 0, 0, 0, 0⟩),
        ("updated_at", .dtval ⟨2024, 1, 1, 0, 0, 0, 0⟩)]) from rfl] at h
  simp [ormAttrs] at h

/-! #### Decimal and hex digit facts for the dumps/parse roundtrip -/

theorem digitChar_isDigit : ∀ d < 10, (digitChar d).isDigit = true := by decide

theorem digitChar_toNat : ∀ d < 10, (digitChar d).toNat = 48 + d := by decide

theorem hexVal_hexChar : ∀ x < 16, hexVal? (hexChar x) = some x := by decide

theorem digitsToNat_append_one (xs : List Char) (c : Char) :
    digitsToNat (xs ++ [c]) = digitsToNat xs * 10 + (c.toNat - 48) := by
  unfold digitsToNat
  rw [List.foldl_append]
  rfl

theorem natReprAux_spec : ∀ fuel n, n ≤ fuel →
    digitsToNat (natReprAux fuel n) = n ∧ ∀ c ∈ natReprAux fuel n, c.isDigit = true := by
  intro fuel
  induction fuel with
  | zero =>
    intro n hn
    have : n = 0 := Nat.le_zero.mp hn
    subst this
    exact ⟨rfl, by simp [natReprAux]⟩
  | succ fuel ih =>
    intro n hn
    by_cases h0 : n = 0
    · subst h0
      exact ⟨rfl, by simp [natReprAux]⟩
    · have hstep : natReprAux (fuel + 1) n
          = natReprAux fuel (n / 10) ++ [digitChar (n % 10)] := by
        rw [show natReprAux (fuel + 1) n = if n = 0 then []
            else natReprAux fuel (n / 10) ++ [digitChar (n % 10)] from rfl, if_neg h0]
      have hdiv : n / 10 ≤ fuel := by
        have := Nat.div_lt_self (Nat.pos_of_ne_zero h0) (by norm_num : 1 < 10)
        omega
      obtain ⟨ihv, ihd⟩ := ih (n / 10) hdiv
      constructor
      · rw [hstep, digitsToNat_append_one, ihv,
          digitChar_toNat (n % 10) (Nat.mod_lt _ (by norm_num))]
        omega
      · rw [hstep]
        intro c hc
        rcases List.mem_append.mp hc with h | h
        · exact ihd c h
        · rw [List.mem_singleton.mp h]
          exact digitChar_isDigit _ (Nat.mod_lt _ (by norm_num))

theorem natRepr_spec (n : Nat) :
    digitsToNat (natRepr n) = n ∧ ∀ c ∈ natRepr n, c.isDigit = true := by
  by_cases h0 : n = 0
  · subst h0
    exact ⟨rfl, by decide⟩
  · unfold natRepr
    rw [if_neg h0]
    exact natReprAux_spec n n le_rfl

theorem natReprAux_head : ∀ fuel n, 0 < n → n ≤ fuel →
    ∃ c cs, natReprAux fuel n = c :: cs ∧ c.isDigit = true ∧ c ≠ '0' := by
  intro fuel
  induction fuel with
  | zero => intro n hn hle; omega
  | succ fuel ih =>
    intro n hn hle
    have hstep : natReprAux (fuel + 1) n
        = natReprAux fuel (n / 10) ++ [digitChar (n % 10)] := by
      rw [show natReprAux (fuel + 1) n = if n = 0 then []
          else natReprAux fuel (n / 10) ++ [digitChar (n % 10)] from rfl, if_neg (by omega)]
    by_cases hsmall : n < 10
    · have hz : n / 10 = 0 := Nat.div_eq_of_lt hsmall
      have : natReprAux fuel (n / 10) = [] := by
        rw [hz]
        cases fuel <;> simp [natReprAux]
      refine ⟨digitChar (n % 10), [], by rw [hstep, this]; rfl,
        digitChar_isDigit _ (Nat.mod_lt _ (by norm_num)), ?_⟩
      intro he
      have h1 := digitChar_toNat (n % 10) (Nat.mod_lt _ (by norm_num))
      rw [he] at h1
      have : ('0' : Char).toNat = 48 := by decide
      omega
    · have hpos : 0 < n / 10 := Nat.div_pos (by omega) (by norm_num)
      have hdiv : n / 10 ≤ fuel := by
        have := Nat.div_lt_self (by omega : 0 < n) (by norm_num : 1 < 10)
        omega
      obtain ⟨c, cs, hcs, hcd, hc0⟩ := ih (n / 10) hpos hdiv
      exact ⟨c, cs ++ [digitChar (n % 10)], by rw [hstep, hcs]; rfl, hcd, hc0⟩

/-- Head condition used to stop a digit run. -/
def headStops (p : Char → Bool) : List Char → Prop
  | [] => True
  | c :: _ => p c = false

theorem takeWhile_append_stop (p : Char → Bool) (l1 l2 : List Char)
    (h1 : ∀ a ∈ l1, p a = true) (h2 : headStops p l2) :
    (l1 ++ l2).takeWhile p = l1 ∧ (l1 ++ l2).dropWhile p = l2 := by
  induction l1 with
  | nil =>
    simp only [List.nil_append]
    cases l2 with
    | nil => exact ⟨rfl, rfl⟩
    | cons c cs =>
      simp only [headStops] at h2
      constructor
      · simp [List.takeWhile_cons, h2]
      · simp [List.dropWhile_cons, h2]
  | cons a l1 ih =>
    have ha : p a = true := h1 a (List.mem_cons_self a l1)
    obtain ⟨iht, ihd⟩ := ih (fun b hb => h1 b (List.mem_cons_of_mem a hb))
    constructor
    · simp [List.takeWhile_cons, ha, iht]
    · simp [List.dropWhile_cons, ha, ihd]

theorem jparseNumNat_repr (n : Nat) (rest : List Char)
    (hstop : jnumStop rest = true) (hd : headStops Char.isDigit rest) :
    jparseNumNat (natRepr n ++ rest) = some (n, rest) := by
  by_cases h0 : n = 0
  · subst h0
    show jparseNumNat ('0' :: rest) = some (0, rest)
    unfold jparseNumNat
    simp [hstop]
  · obtain ⟨c, cs, hcs, hcd, hc0⟩ := natReprAux_head n n (Nat.pos_of_ne_zero h0) le_rfl
    have hrepr : natRepr n = c :: cs := by
      unfold natRepr
      rw [if_neg h0, hcs]
    obtain ⟨hval, hdig⟩ := natRepr_spec n
    rw [hrepr] at hval hdig
    have hcsd : ∀ a ∈ cs, a.isDigit = true := fun a ha =>
      hdig a (List.mem_cons_of_mem c ha)
    obtain ⟨htake, hdrop⟩ := takeWhile_append_stop Char.isDigit cs rest hcsd hd
    rw [hrepr, List.cons_append]
    simp [jparseNumNat, hc0, hcd, htake, hdrop, hstop, hval]

theorem natRepr_head_digit (n : Nat) :
    ∃ c cs, natRepr n = c :: cs ∧ c.isDigit = true := by
  by_cases h0 : n = 0
  · subst h0
    exact ⟨'0', [], rfl, by decide⟩
  · obtain ⟨c, cs, hcs, hcd, _⟩ := natReprAux_head n n (Nat.pos_of_ne_zero h0) le_rfl
    exact ⟨c, cs, by unfold natRepr; rw [if_neg h0, hcs], hcd⟩

theorem ne_of_isDigit {c : Char} (h : c.isDigit = true) (d : Char)
    (hd : d.isDigit = false) : c ≠ d := by
  intro he
  rw [he, hd] at h
  exact absurd h (by simp)

theorem jparseNum_intRepr (i : Int) (rest : List Char)
    (hstop : jnumStop rest = true) (hd : headStops Char.isDigit rest) :
    jparseNum (intRepr i ++ rest) = some (i, rest) := by
  by_cases hneg : i < 0
  · have hrepr : intRepr i = '-' :: natRepr i.natAbs := by
      unfold intRepr
      rw [if_pos hneg]
    rw [hrepr, List.cons_append]
    simp only [jparseNum]
    rw [if_pos trivial, jparseNumNat_repr i.natAbs rest hstop hd]
    show some (-(i.natAbs : Int), rest) = some (i, rest)
    rw [show -(i.natAbs : Int) = i by omega]
  · have hrepr0 : intRepr i = natRepr i.natAbs := by
      unfold intRepr
      rw [if_neg hneg]
    obtain ⟨c, cs, hcs, hcd⟩ := natRepr_head_digit i.natAbs
    rw [hrepr0, hcs, List.cons_append]
    simp only [jparseNum]
    rw [if_neg (ne_of_isDigit hcd '-' (by decide)), ← List.cons_append, ← hcs,
      jparseNumNat_repr i.natAbs rest hstop hd]
    show some ((i.natAbs : Int), rest) = some (i, rest)
    rw [show ((i.natAbs : Int)) = i by omega]

/-! ### C9: the parse-print roundtrip of the cache codec -/

theorem char_valid_nat (c : Char) :
    c.toNat < 0xd800 ∨ (0xe000 ≤ c.toNat ∧ c.toNat < 0x110000) := c.valid

set_option maxHeartbeats 2000000 in
theorem jparseStrL_u_step (a b c d : Char) (x y z w : Nat) (tail : List Char)
    (ha : hexVal? a = some x) (hb : hexVal? b = some y)
    (hc : hexVal? c = some z) (hd : hexVal? d = some w)
    (hlo : ¬ (0xd800 ≤ ((x * 16 + y) * 16 + z) * 16 + w ∧
      ((x * 16 + y) * 16 + z) * 16 + w ≤ 0xdfff)) :
    jparseStrL ('\\' :: 'u' :: a :: b :: c :: d :: tail)
      = (jparseStrL tail).map
          (fun p => (Char.ofNat (((x * 16 + y) * 16 + z) * 16 + w) :: p.1, p.2)) := by
  rw [jparseStrL.eq_def]
  simp only [ha, hb, hc, hd]
  rw [if_neg (by simp only [Bool.and_eq_true, decide_eq_true_eq]; omega),
      if_neg (by simp only [Bool.and_eq_true, decide_eq_true_eq]; omega)]

theorem jparseStrL_uu_step (a b c d e f g h : Char) (x y z w x2 y2 z2 w2 : Nat)
    (tail : List Char)
    (ha : hexVal? a = some x) (hb : hexVal? b = some y)
    (hc : hexVal? c = some z) (hd : hexVal? d = some w)
    (he : hexVal? e = some x2) (hf2 : hexVal? f = some y2)
    (hg : hexVal? g = some z2) (hh : hexVal? h = some w2)
    (hhi : 0xd800 ≤ ((x * 16 + y) * 16 + z) * 16 + w ∧
      ((x * 16 + y) * 16 + z) * 16 + w ≤ 0xdbff)
    (hlo : 0xdc00 ≤ ((x2 * 16 + y2) * 16 + z2) * 16 + w2 ∧
      ((x2 * 16 + y2) * 16 + z2) * 16 + w2 ≤ 0xdfff) :
    jparseStrL ('\\' :: 'u' :: a :: b :: c :: d :: '\\' :: 'u' :: e :: f :: g :: h :: tail)
      = (jparseStrL tail).map (fun p =>
          (Char.ofNat (0x10000 + (((x * 16 + y) * 16 + z) * 16 + w - 0xd800) * 1024 +
            (((x2 * 16 + y2) * 16 + z2) * 16 + w2 - 0xdc00)) :: p.1, p.2)) := by
  rw [jparseStrL.eq_def]
  simp only [ha, hb, hc, hd]
  rw [if_pos (by simp only [Bool.and_eq_true, decide_eq_true_eq]; omega)]
  simp only [he, hf2, hg, hh]
  rw [if_pos (by simp only [Bool.and_eq_true, decide_eq_true_eq]; omega)]

theorem jparseStrL_escape (c : Char) (tail : List Char) :
    jparseStrL (jescapeChar c ++ tail)
      = (jparseStrL tail).map (fun p => (c :: p.1, p.2)) := by
  by_cases h1 : c = '"'
  · subst h1; rfl
  by_cases h2 : c = '\\'
  · subst h2; rfl
  by_cases h3 : c.toNat = 8
  · have hc : c = Char.ofNat 8 := by rw [← Char.ofNat_toNat c, h3]
    subst hc; rfl
  by_cases h4 : c.toNat = 9
  · have hc : c = Char.ofNat 9 := by rw [← Char.ofNat_toNat c, h4]
    subst hc; rfl
  by_cases h5 : c.toNat = 10
  · have hc : c = Char.ofNat 10 := by rw [← Char.ofNat_toNat c, h5]
    subst hc; rfl
  by_cases h6 : c.toNat = 12
  · have hc : c = Char.ofNat 12 := by rw [← Char.ofNat_toNat c, h6]
    subst hc; rfl
  by_cases h7 : c.toNat = 13
  · have hc : c = Char.ofNat 13 := by rw [← Char.ofNat_toNat c, h7]
    subst hc; rfl
  by_cases h8 : 0x20 ≤ c.toNat ∧ c.toNat ≤ 0x7e
  · have he : jescapeChar c = [c] := by
      simp only [jescapeChar]
      rw [if_neg h1, if_neg h2, if_neg h3, if_neg h4, if_neg h5, if_neg h6, if_neg h7,
        if_pos (by simp only [Bool.and_eq_true, decide_eq_true_eq]; exact h8)]
    rw [he]
    show jparseStrL (c :: tail) = _
    rw [jparseStrL.eq_def]
    split
    · rename_i x heq
      exact absurd heq (List.cons_ne_nil _ _)
    · rename_i x rest heq
      injection heq with hc ht
      exact absurd hc h1
    · rename_i x a b c3 d rest heq
      injection heq with hc ht
      exact absurd hc h2
    · rename_i x1 e rest hx heq
      injection heq with hc ht
      exact absurd hc h2
    · rename_i x3 cc rest hx2 hx1 hx0 heq
      injection heq with hc ht
      subst hc
      subst ht
      rw [if_neg (by omega)]
  have hval := char_valid_nat c
  by_cases h9 : c.toNat < 0x10000
  · have he : jescapeChar c = '\\' :: 'u' :: toHex4 c.toNat := by
      simp only [jescapeChar]
      rw [if_neg h1, if_neg h2, if_neg h3, if_neg h4, if_neg h5, if_neg h6, if_neg h7,
        if_neg (by simp only [Bool.and_eq_true, decide_eq_true_eq]; exact h8), if_pos h9]
    rw [he]
    show jparseStrL ('\\' :: 'u' :: hexChar (c.toNat / 4096 % 16) :: hexChar (c.toNat / 256 % 16)
      :: hexChar (c.toNat / 16 % 16) :: hexChar (c.toNat % 16) :: tail) = _
    rw [jparseStrL_u_step _ _ _ _ _ _ _ _ tail
      (hexVal_hexChar _ (by omega)) (hexVal_hexChar _ (by omega))
      (hexVal_hexChar _ (by omega)) (hexVal_hexChar _ (by omega)) (by omega)]
    rw [show ((c.toNat / 4096 % 16 * 16 + c.toNat / 256 % 16) * 16 + c.toNat / 16 % 16) * 16
        + c.toNat % 16 = c.toNat by omega, Char.ofNat_toNat]
  · have he : jescapeChar c = '\\' :: 'u' :: toHex4 (0xd800 + (c.toNat - 0x10000) / 1024) ++
        '\\' :: 'u' :: toHex4 (0xdc00 + (c.toNat - 0x10000) % 1024) := by
      simp only [jescapeChar]
      rw [if_neg h1, if_neg h2, if_neg h3, if_neg h4, if_neg h5, if_neg h6, if_neg h7,
        if_neg (by simp only [Bool.and_eq_true, decide_eq_true_eq]; exact h8), if_neg h9]
    rw [he]
    show jparseStrL ('\\' :: 'u'
      :: hexChar ((0xd800 + (c.toNat - 0x10000) / 1024) / 4096 % 16)
      :: hexChar ((0xd800 + (c.toNat - 0x10000) / 1024) / 256 % 16)
      :: hexChar ((0xd800 + (c.toNat - 0x10000) / 1024) / 16 % 16)
      :: hexChar ((0xd800 + (c.toNat - 0x10000) / 1024) % 16)
      :: '\\' :: 'u'
      :: hexChar ((0xdc00 + (c.toNat - 0x10000) % 1024) / 4096 % 16)
      :: hexChar ((0xdc00 + (c.toNat - 0x10000) % 1024) / 256 % 16)
      :: hexChar ((0xdc00 + (c.toNat - 0x10000) % 1024) / 16 % 16)
      :: hexChar ((0xdc00 + (c.toNat - 0x10000) % 1024) % 16)
      :: tail) = _
    rw [jparseStrL_uu_step _ _ _ _ _ _ _ _ _ _ _ _ _ _ _ _ tail
      (hexVal_hexChar _ (by omega)) (hexVal_hexChar _ (by omega))
      (hexVal_hexChar _ (by omega)) (hexVal_hexChar _ (by omega))
      (hexVal_hexChar _ (by omega)) (hexVal_hexChar _ (by omega))
      (hexVal_hexChar _ (by omega)) (hexVal_hexChar _ (by omega))
      (by constructor <;> omega) (by constructor <;> omega)]
    simp only [show 0x10000 +
        ((((0xd800 + (c.toNat - 0x10000) / 1024) / 4096 % 16 * 16 +
            (0xd800 + (c.toNat - 0x10000) / 1024) / 256 % 16) * 16 +
            (0xd800 + (c.toNat - 0x10000) / 1024) / 16 % 16) * 16 +
            (0xd800 + (c.toNat - 0x10000) / 1024) % 16 - 0xd800) * 1024 +
        ((((0xdc00 + (c.toNat - 0x10000) % 1024) / 4096 % 16 * 16 +
            (0xdc00 + (c.toNat - 0x10000) % 1024) / 256 % 16) * 16 +
            (0xdc00 + (c.toNat - 0x10000) % 1024) / 16 % 16) * 16 +
            (0xdc00 + (c.toNat - 0x10000) % 1024) % 16 - 0xdc00) = c.toNat from by omega,
      Char.ofNat_toNat]

theorem jparseStrL_dump (l rest : List Char) :
    jparseStrL ((l.map jescapeChar).flatten ++ '"' :: rest) = some (l, rest) := by
  induction l with
  | nil => rfl
  | cons c l ih =>
    simp only [List.map_cons, List.flatten_cons, List.append_assoc]
    rw [jparseStrL_escape, ih]
    rfl

theorem jparseStrL_dumpStr (s : String) (rest : List Char) :
    jparseStrL (jdumpStrBody s ++ '"' :: rest) = some (s.data, rest) :=
  jparseStrL_dump s.data rest

theorem jskipWs_cons (c : Char) (cs : List Char)
    (h : (c = ' ' || c = '\t' || c = '\n' || c = '\x0d') = false) :
    jskipWs (c :: cs) = c :: cs := by
  simp only [jskipWs, List.dropWhile_cons, h]
  simp

theorem jparseVal_null (fuel : Nat) (rest : List Char) :
    jparseVal (fuel + 1) ('n' :: 'u' :: 'l' :: 'l' :: rest) = some (.null, rest) := rfl

theorem jparseVal_str (fuel : Nat) (s : String) (rest : List Char) :
    jparseVal (fuel + 1) ('"' :: (jdumpStrBody s ++ '"' :: rest)) = some (.str s, rest) := by
  rw [show jparseVal (fuel + 1) ('"' :: (jdumpStrBody s ++ '"' :: rest))
      = (jparseStrL (jdumpStrBody s ++ '"' :: rest)).map (fun p => (Json.str ⟨p.1⟩, p.2)) from rfl,
    jparseStrL_dumpStr]
  rfl

set_option maxHeartbeats 2000000 in
theorem jparseVal_default (fuel : Nat) (c : Char) (cs : List Char)
    (hws : (c = ' ' || c = '\t' || c = '\n' || c = '\x0d') = false)
    (h1 : c ≠ '"') (h2 : c ≠ '{') (h3 : c ≠ '[')
    (h4 : c ≠ 't') (h5 : c ≠ 'f') (h6 : c ≠ 'n') :
    jparseVal (fuel + 1) (c :: cs)
      = (jparseNum (c :: cs)).map (fun p => (Json.num p.1, p.2)) := by
  rw [jparseVal.eq_def]
  simp only [jskipWs_cons c cs hws]
  split
  · rename_i heq
    injection heq with hc ht
    exact absurd hc h1
  · rename_i heq
    injection heq with hc ht
    exact absurd hc h2
  · rename_i heq
    injection heq with hc ht
    exact absurd hc h3
  · rename_i heq
    injection heq with hc ht
    exact absurd hc h4
  · rename_i heq
    injection heq with hc ht
    exact absurd hc h5
  · rename_i heq
    injection heq with hc ht
    exact absurd hc h6
  · rfl

theorem jparseVal_num (fuel : Nat) (i : Int) (rest : List Char)
    (hstop : jnumStop rest = true) (hd : headStops Char.isDigit rest) :
    jparseVal (fuel + 1) (intRepr i ++ rest) = some (.num i, rest) := by
  by_cases hneg : i < 0
  · have hform : intRepr i ++ rest = '-' :: (natRepr i.natAbs ++ rest) := by
      rw [intRepr, if_pos hneg]
      rfl
    rw [hform]
    rw [show jparseVal (fuel + 1) ('-' :: (natRepr i.natAbs ++ rest))
        = (jparseNum ('-' :: (natRepr i.natAbs ++ rest))).map (fun p => (Json.num p.1, p.2))
        from rfl]
    rw [← hform, jparseNum_intRepr i rest hstop hd]
    rfl
  · obtain ⟨c, cs, hnr, hdig⟩ := natRepr_head_digit i.natAbs
    have hform : intRepr i ++ rest = c :: (cs ++ rest) := by
      rw [intRepr, if_neg hneg, hnr]
      rfl
    have hws : (c = ' ' || c = '\t' || c = '\n' || c = '\x0d') = false := by
      have hsp := ne_of_isDigit hdig ' ' (by decide)
      have hta := ne_of_isDigit hdig '\t' (by decide)
      have hnl := ne_of_isDigit hdig '\n' (by decide)
      have hcr := ne_of_isDigit hdig '\x0d' (by decide)
      simp [hsp, hta, hnl, hcr]
    rw [hform]
    rw [jparseVal_default fuel c (cs ++ rest) hws
      (ne_of_isDigit hdig '"' (by decide)) (ne_of_isDigit hdig '{' (by decide))
      (ne_of_isDigit hdig '[' (by decide)) (ne_of_isDigit hdig 't' (by decide))
      (ne_of_isDigit hdig 'f' (by decide)) (ne_of_isDigit hdig 'n' (by decide))]
    rw [← hform, jparseNum_intRepr i rest hstop hd]
    rfl

/-- The only JSON shapes `_serialize` puts into dict values: scalars. -/
def atomScalar : Json → Prop
  | .null => True
  | .num _ => True
  | .str _ => True
  | _ => False

theorem jparseVal_atom (fuel : Nat) (v : Json) (hv : atomScalar v) (rest : List Char)
    (hstop : jnumStop rest = true) (hd : headStops Char.isDigit rest) :
    jparseVal (fuel + 1) (jdumpAtom v ++ rest) = some (v, rest) := by
  match v with
  | .null => exact jparseVal_null fuel rest
  | .num i => exact jparseVal_num fuel i rest hstop hd
  | .str s =>
    have hform : jdumpAtom (.str s) ++ rest = '"' :: (jdumpStrBody s ++ '"' :: rest) := by
      simp [jdumpAtom, jdumpStr]
    rw [hform, jparseVal_str]
  | .bool b => exact hv.elim
  | .arr l => exact hv.elim
  | .obj l => exact hv.elim

theorem jskipWs_atom (v : Json) (hv : atomScalar v) (rest : List Char) :
    jskipWs (jdumpAtom v ++ rest) = jdumpAtom v ++ rest := by
  match v with
  | .null => rfl
  | .str s => rfl
  | .num i =>
    show jskipWs (intRepr i ++ rest) = intRepr i ++ rest
    by_cases hneg : i < 0
    · have hform : intRepr i ++ rest = '-' :: (natRepr i.natAbs ++ rest) := by
        rw [intRepr, if_pos hneg]
        rfl
      rw [hform]
      rfl
    · obtain ⟨c, cs, hnr, hdig⟩ := natRepr_head_digit i.natAbs
      have hform : intRepr i ++ rest = c :: (cs ++ rest) := by
        rw [intRepr, if_neg hneg, hnr]
        rfl
      have hws : (c = ' ' || c = '\t' || c = '\n' || c = '\x0d') = false := by
        have hsp := ne_of_isDigit hdig ' ' (by decide)
        have hta := ne_of_isDigit hdig '\t' (by decide)
        have hnl := ne_of_isDigit hdig '\n' (by decide)
        have hcr := ne_of_isDigit hdig '\x0d' (by decide)
        simp [hsp, hta, hnl, hcr]
      rw [hform]
      exact jskipWs_cons c (cs ++ rest) hws
  | .bool b => exact hv.elim
  | .arr l => exact hv.elim
  | .obj l => exact hv.elim

theorem jparseVal_ws_skip (fuel : Nat) (cs : List Char) :
    jparseVal (fuel + 1) (' ' :: cs) = jparseVal (fuel + 1) cs := by
  rw [jparseVal.eq_def]
  rw [jparseVal.eq_def]
  have h : jskipWs (' ' :: cs) = jskipWs cs := by
    simp [jskipWs]
  simp only [h]

theorem jdumpMembers_singleton_shape (k : String) (v : Json) (rest : List Char) :
    jdumpMembers [(k, v)] ++ '}' :: rest
      = '"' :: (jdumpStrBody k ++ '"' :: (':' :: ' ' :: (jdumpAtom v ++ '}' :: rest))) := by
  simp [jdumpMembers, jdumpStr, List.append_assoc]

theorem jparseMembers_dump (flds : List (String × Json)) :
    ∀ (fuel : Nat) (rest : List Char), flds ≠ [] → (∀ p ∈ flds, atomScalar p.2) →
    flds.length + 1 ≤ fuel →
    jparseMembers fuel (jdumpMembers flds ++ '}' :: rest) = some (flds, rest) := by
  induction flds with
  | nil => intro fuel rest hne _ _; exact absurd rfl hne
  | cons kv tl ih =>
    intro fuel rest _ hsc hfuel
    obtain ⟨k, v⟩ := kv
    have hv : atomScalar v := hsc (k, v) (List.mem_cons_self _ _)
    obtain ⟨f, rfl⟩ : ∃ f, fuel = f + 1 + 1 := ⟨fuel - 2, by simp at hfuel; omega⟩
    cases tl with
    | nil =>
      rw [jdumpMembers_singleton_shape, jparseMembers.eq_def]
      have h1 : jskipWs (':' :: ' ' :: (jdumpAtom v ++ '}' :: rest))
          = ':' :: ' ' :: (jdumpAtom v ++ '}' :: rest) := jskipWs_cons _ _ (by decide)
      have h2 : jparseVal (f + 1) (' ' :: (jdumpAtom v ++ '}' :: rest))
          = some (v, '}' :: rest) := by
        rw [jparseVal_ws_skip, jparseVal_atom f v hv ('}' :: rest) rfl rfl]
      have h3 : jskipWs ('}' :: rest) = '}' :: rest := jskipWs_cons _ _ (by decide)
      simp only [jparseStrL_dumpStr, h1, h2, h3]
    | cons p tl2 =>
      have hshape : jdumpMembers ((k, v) :: p :: tl2) ++ '}' :: rest
          = '"' :: (jdumpStrBody k ++ '"' :: (':' :: ' ' ::
              (jdumpAtom v ++ ',' :: ' ' :: (jdumpMembers (p :: tl2) ++ '}' :: rest)))) := by
        simp [jdumpMembers, jdumpStr, List.append_assoc]
      rw [hshape, jparseMembers.eq_def]
      have h1 : jskipWs (':' :: ' ' ::
            (jdumpAtom v ++ ',' :: ' ' :: (jdumpMembers (p :: tl2) ++ '}' :: rest)))
          = ':' :: ' ' ::
            (jdumpAtom v ++ ',' :: ' ' :: (jdumpMembers (p :: tl2) ++ '}' :: rest)) :=
        jskipWs_cons _ _ (by decide)
      have h2 : jparseVal (f + 1) (' ' ::
            (jdumpAtom v ++ ',' :: ' ' :: (jdumpMembers (p :: tl2) ++ '}' :: rest)))
          = some (v, ',' :: ' ' :: (jdumpMembers (p :: tl2) ++ '}' :: rest)) := by
        rw [jparseVal_ws_skip,
          jparseVal_atom f v hv (',' :: ' ' :: (jdumpMembers (p :: tl2) ++ '}' :: rest)) rfl rfl]
      have h3 : jskipWs (',' :: ' ' :: (jdumpMembers (p :: tl2) ++ '}' :: rest))
          = ',' :: ' ' :: (jdumpMembers (p :: tl2) ++ '}' :: rest) :=
        jskipWs_cons _ _ (by decide)
      obtain ⟨X, hX⟩ : ∃ X, jdumpMembers (p :: tl2) = '"' :: X := by
        cases tl2 with
        | nil =>
          obtain ⟨k2, v2⟩ := p
          exact ⟨_, rfl⟩
        | cons q tl3 =>
          obtain ⟨k2, v2⟩ := p
          exact ⟨_, rfl⟩
      have h4 : jskipWs (' ' :: (jdumpMembers (p :: tl2) ++ '}' :: rest))
          = jdumpMembers (p :: tl2) ++ '}' :: rest := by
        rw [show jskipWs (' ' :: (jdumpMembers (p :: tl2) ++ '}' :: rest))
            = jskipWs (jdumpMembers (p :: tl2) ++ '}' :: rest) from by simp [jskipWs], hX]
        exact jskipWs_cons _ _ (by decide)
      have h5 : jparseMembers (f + 1) (jdumpMembers (p :: tl2) ++ '}' :: rest)
          = some (p :: tl2, rest) := by
        refine ih (f + 1) rest (by simp) ?_ ?_
        · intro q hq
          exact hsc q (List.mem_cons_of_mem _ hq)
        · simp at hfuel ⊢
          omega
      simp only [jparseStrL_dumpStr, h1, h2, h3, h4, h5]
      rfl

theorem jdumpMembers_head (k : String) (v : Json) (tl : List (String × Json)) :
    ∃ X, jdumpMembers ((k, v) :: tl) = '"' :: X := by
  cases tl with
  | nil => exact ⟨_, rfl⟩
  | cons p tl2 => exact ⟨_, rfl⟩

theorem jdumpMembers_length : ∀ (flds : List (String × Json)),
    flds.length ≤ (jdumpMembers flds).length := by
  intro flds
  match flds with
  | [] => simp
  | [(k, v)] => simp [jdumpMembers, jdumpStr]
  | (k, v) :: p :: tl =>
    have ih := jdumpMembers_length (p :: tl)
    simp [jdumpMembers, jdumpStr] at ih ⊢
    omega

theorem json_loads_dump (flds : List (String × Json))
    (hsc : ∀ p ∈ flds, atomScalar p.2) :
    json_loads ⟨jdumpFlatObj flds⟩ = some (.obj flds) := by
  match flds, hsc with
  | [], _ => rfl
  | (k, v) :: tl, hsc =>
    obtain ⟨X, hX⟩ := jdumpMembers_head k v tl
    have hlen := jdumpMembers_length ((k, v) :: tl)
    rw [hX] at hlen
    have hmem := jparseMembers_dump ((k, v) :: tl)
      (2 * ('{' :: '"' :: (X ++ ['}'])).length + 1) []
      (by simp) hsc
      (by simp at hlen ⊢; omega)
    rw [show jdumpMembers ((k, v) :: tl) ++ ['}'] = '"' :: (X ++ ['}'])
      from by rw [hX]; rfl] at hmem
    have r1 : jdumpFlatObj ((k, v) :: tl) = '{' :: '"' :: (X ++ ['}']) := by
      rw [show jdumpFlatObj ((k, v) :: tl)
        = '{' :: (jdumpMembers ((k, v) :: tl) ++ ['}']) from rfl, hX]
      rfl
    have r2 : jskipWs ('{' :: '"' :: (X ++ ['}'])) = '{' :: '"' :: (X ++ ['}']) :=
      jskipWs_cons _ _ (by decide)
    have r3 : jskipWs ('"' :: (X ++ ['}'])) = '"' :: (X ++ ['}']) :=
      jskipWs_cons _ _ (by decide)
    have hval : jparseVal (2 * ('{' :: '"' :: (X ++ ['}'])).length + 2)
        ('{' :: '"' :: (X ++ ['}'])) = some (.obj ((k, v) :: tl), []) := by
      rw [jparseVal.eq_def]
      simp only [r2, r3]
      split
      · rename_i rest2 heq
        injection heq with h1 h2
        exact absurd h1 (by decide)
      · rw [hmem]
        rfl
    have r0 : (String.mk (jdumpFlatObj ((k, v) :: tl))).data
        = jdumpFlatObj ((k, v) :: tl) := rfl
    simp only [json_loads, r0, r1, hval]
    rfl

theorem parse2_pad2 (n : Nat) (h : n ≤ 99) (rest : List Char) :
    parse2 (pad2 n ++ rest) = some (n, rest) := by
  show parse2 (digitChar (n / 10 % 10) :: digitChar (n % 10) :: rest) = some (n, rest)
  simp only [parse2, digitChar_isDigit (n / 10 % 10) (by omega),
    digitChar_isDigit (n % 10) (by omega), Bool.and_self, if_pos,
    digitChar_toNat (n / 10 % 10) (by omega), digitChar_toNat (n % 10) (by omega)]
  congr 1
  congr 1
  omega

theorem parse4_pad4 (n : Nat) (h : n ≤ 9999) (rest : List Char) :
    parse4 (pad4 n ++ rest) = some (n, rest) := by
  show parse4 (digitChar (n / 1000 % 10) :: digitChar (n / 100 % 10)
    :: digitChar (n / 10 % 10) :: digitChar (n % 10) :: rest) = some (n, rest)
  simp only [parse4, digitChar_isDigit (n / 1000 % 10) (by omega),
    digitChar_isDigit (n / 100 % 10) (by omega), digitChar_isDigit (n / 10 % 10) (by omega),
    digitChar_isDigit (n % 10) (by omega), Bool.and_self,
    digitChar_toNat (n / 1000 % 10) (by omega), digitChar_toNat (n / 100 % 10) (by omega),
    digitChar_toNat (n / 10 % 10) (by omega), digitChar_toNat (n % 10) (by omega)]
  rw [if_pos trivial]
  congr 1
  congr 1
  omega

theorem digitsToNat_pad6 (n : Nat) (h : n ≤ 999999) : digitsToNat (pad6 n) = n := by
  show digitsToNat [digitChar (n / 100000 % 10), digitChar (n / 10000 % 10),
    digitChar (n / 1000 % 10), digitChar (n / 100 % 10),
    digitChar (n / 10 % 10), digitChar (n % 10)] = n
  simp only [digitsToNat, List.foldl,
    digitChar_toNat (n / 100000 % 10) (by omega), digitChar_toNat (n / 10000 % 10) (by omega),
    digitChar_toNat (n / 1000 % 10) (by omega), digitChar_toNat (n / 100 % 10) (by omega),
    digitChar_toNat (n / 10 % 10) (by omega), digitChar_toNat (n % 10) (by omega)]
  omega

theorem pad6_take (n : Nat) :
    (pad6 n).takeWhile Char.isDigit = pad6 n ∧ (pad6 n).dropWhile Char.isDigit = [] := by
  have h := takeWhile_append_stop Char.isDigit (pad6 n) []
    (by
      intro a ha
      simp [pad6] at ha
      rcases ha with h | h | h | h | h | h <;>
        (subst h; exact digitChar_isDigit _ (by omega)))
    trivial
  simpa using h

theorem pyFromIsoTime_iso (y mo d hh mi ss μ : Nat)
    (hh23 : hh ≤ 23) (hmi : mi ≤ 59) (hss : ss ≤ 59) (hμ : μ ≤ 999999) :
    pyFromIsoTime y mo d (pad2 hh ++ ':' :: (pad2 mi ++ ':' :: (pad2 ss ++
      (if μ = 0 then [] else '.' :: pad6 μ)))) = some ⟨y, mo, d, hh, mi, ss, μ⟩ := by
  by_cases h0 : μ = 0
  · rw [if_pos h0]
    simp only [pyFromIsoTime, parse2_pad2 hh (by omega), parse2_pad2 mi (by omega),
      parse2_pad2 ss (by omega), if_pos hh23, if_pos hmi, if_pos hss]
    rw [h0]
  · rw [if_neg h0]
    simp only [pyFromIsoTime, parse2_pad2 hh (by omega), parse2_pad2 mi (by omega),
      parse2_pad2 ss (by omega), if_pos hh23, if_pos hmi, if_pos hss,
      (pad6_take μ).1, (pad6_take μ).2,
      show (pad6 μ).length = 6 from rfl]
    rw [if_pos (by decide)]
    simp [digitsToNat_pad6 μ (by omega)]

theorem pyFromIso_isoformat (dt : PyDateTime) (h : ValidDT dt) :
    pyFromIso (isoformat dt) = some dt := by
  obtain ⟨h1, h2, h3, h4, h5, h6, h7, h8, h9, h10⟩ := h
  have hdm : daysInMonth dt.year dt.month ≤ 31 := by
    unfold daysInMonth
    split
    · split <;> omega
    · split <;> omega
  have hdata : (isoformat dt).data = pad4 dt.year ++ '-' :: (pad2 dt.month ++ '-' ::
      (pad2 dt.day ++ 'T' :: (pad2 dt.hour ++ ':' :: (pad2 dt.minute ++ ':' ::
      (pad2 dt.second ++
        (if dt.microsecond = 0 then [] else '.' :: pad6 dt.microsecond)))))) := rfl
  simp only [pyFromIso, hdata, parse4_pad4 dt.year (by omega),
    parse2_pad2 dt.month (by omega), parse2_pad2 dt.day (by omega)]
  rw [if_pos (by simp only [Bool.and_eq_true, decide_eq_true_eq]; omega)]
  rw [pyFromIsoTime_iso dt.year dt.month dt.day dt.hour dt.minute dt.second dt.microsecond
    h7 h8 h9 h10]

theorem isoformat_contains_T (dt : PyDateTime) :
    (isoformat dt).data.contains 'T' = true := by
  have hdata : (isoformat dt).data = pad4 dt.year ++ '-' :: (pad2 dt.month ++ '-' ::
      (pad2 dt.day ++ 'T' :: (pad2 dt.hour ++ ':' :: (pad2 dt.minute ++ ':' ::
      (pad2 dt.second ++
        (if dt.microsecond = 0 then [] else '.' :: pad6 dt.microsecond)))))) := rfl
  rw [hdata]
  simp

theorem convertEntry_good (k : String) (o : Option String) (hg : goodOptStr o) :
    convertEntry (k, jsonOfOptStr o) = (k, .jval (jsonOfOptStr o)) := by
  cases o with
  | none => rfl
  | some s =>
    show convertEntry (k, .str s) = (k, .jval (.str s))
    simp only [convertEntry]
    by_cases hT : s.data.contains 'T' = true
    · rw [if_pos hT]
      have hps : pyFromIso s = none := by
        cases hps : pyFromIso s with
        | none => rfl
        | some d => exact absurd ⟨hT, by rw [hps]; rfl⟩ hg
      rw [hps]
    · rw [if_neg hT]

theorem convertEntry_iso (k : String) (dt : PyDateTime) (h : ValidDT dt) :
    convertEntry (k, .str (isoformat dt)) = (k, .dtval dt) := by
  simp only [convertEntry]
  rw [if_pos (isoformat_contains_T dt), pyFromIso_isoformat dt h]


set_option maxHeartbeats 4000000 in
/-- C9 (amended): the cache codec is transparent for every user row whose
datetimes are in `datetime`'s valid ranges and whose optional string columns
do not themselves look like ISO timestamps (contain `'T'` and parse with
`fromisoformat`): `_deserialize (_serialize u)` rebuilds an instance carrying
exactly the row's fields, with the two datetime columns restored as
datetimes.  (Unconditionally the claim is false: a string field that looks
like an ISO timestamp comes back as a `datetime`, see the counterexample.) -/
theorem C9_cache_roundtrip_amended (u : OrmUser)
    (hc : ValidDT u.created_at) (hup : ValidDT u.updated_at)
    (hn1 : goodOptStr u.username) (hn2 : goodOptStr u.first_name)
    (hn3 : goodOptStr u.last_name) :
    _deserialize (_serialize u) = some (.inst (ormAttrs u)) := by
  have hsc : ∀ p ∈ serialObj u, atomScalar p.2 := by
    intro p hp
    simp [serialObj] at hp
    rcases hp with h | h | h | h | h | h | h | h
    · subst h; trivial
    · subst h; trivial
    · subst h; cases u.username <;> trivial
    · subst h; cases u.first_name <;> trivial
    · subst h; cases u.last_name <;> trivial
    · subst h; trivial
    · subst h; trivial
    · subst h; trivial
  have hload : json_loads ⟨jdumpFlatObj (serialObj u)⟩ = some (.obj (serialObj u)) :=
    json_loads_dump (serialObj u) hsc
  simp only [_deserialize, _serialize, hload]
  rw [if_pos (show hasKey (dictOf (serialObj u)) "__model__" = true from rfl)]
  rw [show dpop (dictOf (serialObj u)) "__model__"
      = [("id", .num u.id), ("telegram_id", .num u.telegram_id),
         ("username", jsonOfOptStr u.username), ("first_name", jsonOfOptStr u.first_name),
         ("last_name", jsonOfOptStr u.last_name),
         ("created_at", .str (isoformat u.created_at)),
         ("updated_at", .str (isoformat u.updated_at))] from rfl]
  simp only [List.map_cons, List.map_nil,
    convertEntry_good _ _ hn1, convertEntry_good _ _ hn2, convertEntry_good _ _ hn3,
    convertEntry_iso _ _ hc, convertEntry_iso _ _ hup,
    show convertEntry ("id", Json.num u.id) = ("id", Attr.jval (.num u.id)) from rfl,
    show convertEntry ("telegram_id", Json.num u.telegram_id)
      = ("telegram_id", Attr.jval (.num u.telegram_id)) from rfl]
  rfl

theorem C9_cache_roundtrip_amended_witness :
    ValidDT ⟨2024, 1, 2, 3, 4, 5, 6⟩ ∧ ValidDT ⟨2023, 12, 31, 23, 59, 59, 0⟩ ∧
    goodOptStr (some "ann") ∧
    _deserialize (_serialize ⟨1, 42, some "ann", none, some "bee",
        ⟨2024, 1, 2, 3, 4, 5, 6⟩, ⟨2023, 12, 31, 23, 59, 59, 0⟩⟩)
      = some (.inst (ormAttrs ⟨1, 42, some "ann", none, some "bee",
        ⟨2024, 1, 2, 3, 4, 5, 6⟩, ⟨2023, 12, 31, 23, 59, 59, 0⟩⟩)) :=
  ⟨by unfold ValidDT; decide, by unfold ValidDT; decide,
   by simp only [goodOptStr]; decide,
   C9_cache_roundtrip_amended _ (by unfold ValidDT; decide) (by unfold ValidDT; decide)
     (by simp only [goodOptStr]; decide) trivial
     (by simp only [goodOptStr]; decide)⟩
